import Mathlib

/-! Verification development for `plugins/shared/hclspec` and `nomad/structs`.

Shallow embedding of

* `plugins/shared/hclspec/hcl_spec.pb.go`: the `Spec` oneof, its nine
  accessors, `Reset`, `_Spec_OneofMarshaler` and `_Spec_OneofUnmarshaler`;
* `nomad/structs/consul.go`: the Consul Connect stanzas with their `Copy`,
  `Equals` and `Validate` methods.

The decode engine that interprets a `Spec` against a configuration body is not
among the source files.  It is modelled from the specification; every such
definition says so in its doc comment.

Conventions of the embedding.

* A Go pointer `*T` is `Option T`: `none` is `nil`, `some v` is a pointer to a
  record with contents `v`.  Pointer identity is not modelled; the only pointer
  comparisons in the embedded code are against `nil`.
* The interface value `Spec.Block` is `Option isSpec_Block`: `none` is the nil
  interface, `some (.Spec_X x)` an interface holding the wrapper pointer
  `x : *Spec_X`, which may itself be nil (`(*Spec_X)(nil)`) or point to a
  wrapper record `Spec_X{...}`.
* A method that dereferences a nil pointer panics; such methods return
  `Except Panic _`.
* `uint64` and `int` fields are only stored and compared, never used in
  arithmetic, and are embedded as `Nat` and `Int`.
* The `XXX_` bookkeeping fields of the generated messages are omitted.
-/

namespace hclspec

/-! ## Messages of `hcl_spec.pb.go` -/

/-- Attr message: `Name`, `Type` (here `Type_`, as `Type` is reserved), `Required`. -/
structure Attr where
  Name : String
  Type_ : String
  Required : Bool
  deriving DecidableEq, Repr

/-- Literal message: `Value`. -/
structure Literal where
  Value : String
  deriving DecidableEq, Repr

/-- A run-time panic of the Go program. -/
inductive Panic where
  | nilDereference
  deriving DecidableEq, Repr

/-- Wrapper record `Spec_Attr`: the field `Attr`. -/
structure Spec_Attr where
  Attr : Option Attr
  deriving DecidableEq, Repr

/-- Wrapper record `Spec_Literal`: the field `Literal`. -/
structure Spec_Literal where
  Literal : Option Literal
  deriving DecidableEq, Repr

mutual
/-- Spec message: the single oneof field `Block`. -/
inductive Spec : Type where
  | mk (Block : Option isSpec_Block)
/-- The values that may be assigned to `Spec.Block`: a pointer, nil or not, to
one of the nine wrapper records. -/
inductive isSpec_Block : Type where
  | Spec_Object (x : Option Spec_Object)
  | Spec_Array (x : Option Spec_Array)
  | Spec_Attr (x : Option Spec_Attr)
  | Spec_BlockValue (x : Option Spec_BlockValue)
  | Spec_BlockList (x : Option Spec_BlockList)
  | Spec_BlockSet (x : Option Spec_BlockSet)
  | Spec_BlockMap (x : Option Spec_BlockMap)
  | Spec_Default (x : Option Spec_Default)
  | Spec_Literal (x : Option Spec_Literal)
/-- Wrapper record `Spec_Object`: the field `Object`. -/
inductive Spec_Object : Type where
  | mk (Object : Option Object)
/-- Wrapper record `Spec_Array`: the field `Array`. -/
inductive Spec_Array : Type where
  | mk (Array : Option Array)
/-- Wrapper record `Spec_BlockValue`: the field `BlockValue`. -/
inductive Spec_BlockValue : Type where
  | mk (BlockValue : Option Block)
/-- Wrapper record `Spec_BlockList`: the field `BlockList`. -/
inductive Spec_BlockList : Type where
  | mk (BlockList : Option BlockList)
/-- Wrapper record `Spec_BlockSet`: the field `BlockSet`. -/
inductive Spec_BlockSet : Type where
  | mk (BlockSet : Option BlockSet)
/-- Wrapper record `Spec_BlockMap`: the field `BlockMap`. -/
inductive Spec_BlockMap : Type where
  | mk (BlockMap : Option BlockMap)
/-- Wrapper record `Spec_Default`: the field `Default`. -/
inductive Spec_Default : Type where
  | mk (Default : Option Default)
/-- Object message: `Attributes map[string]*Spec`, as an association list. -/
inductive Object : Type where
  | mk (Attributes : List (String × Option Spec))
/-- Array message: `Values []*Spec`. -/
inductive Array : Type where
  | mk (Values : List (Option Spec))
/-- Block message: `Name`, `Required`, `Nested`. -/
inductive Block : Type where
  | mk (Name : String) (Required : Bool) (Nested : Option Spec)
/-- BlockList message: `Name`, `MinItems`, `MaxItems`, `Nested`. -/
inductive BlockList : Type where
  | mk (Name : String) (MinItems : Nat) (MaxItems : Nat) (Nested : Option Spec)
/-- BlockSet message: `Name`, `MinItems`, `MaxItems`, `Nested`. -/
inductive BlockSet : Type where
  | mk (Name : String) (MinItems : Nat) (MaxItems : Nat) (Nested : Option Spec)
/-- BlockMap message: `Name`, `Labels`, `Nested`. -/
inductive BlockMap : Type where
  | mk (Name : String) (Labels : List String) (Nested : Option Spec)
/-- Default message: `Primary`, `Default`. -/
inductive Default : Type where
  | mk (Primary : Option Spec) (Default : Option Spec)
end

/-- Field `m.Block`. -/
def Spec.Block : Spec → Option isSpec_Block
  | .mk b => b

/-- The method `Reset`: `*m = Spec{}`. -/
def Spec.Reset (_m : Spec) : Spec := .mk none

/-- The method `GetBlock`: `m.Block` when `m != nil`, else `nil`. -/
def Spec.GetBlock (m : Option Spec) : Option isSpec_Block :=
  match m with
  | some m => m.Block
  | none => none

/-- The method `GetObject`: the type assertion succeeds on every `*Spec_Object`, nil or
not, and `x.Object` is then read through the pointer. -/
def Spec.GetObject (m : Option Spec) : Except Panic (Option Object) :=
  match Spec.GetBlock m with
  | some (.Spec_Object (some (.mk payload))) => .ok payload
  | some (.Spec_Object none) => .error .nilDereference
  | _ => .ok none

/-- The method `GetArray`: the type assertion succeeds on every `*Spec_Array`, nil or
not, and `x.Array` is then read through the pointer. -/
def Spec.GetArray (m : Option Spec) : Except Panic (Option Array) :=
  match Spec.GetBlock m with
  | some (.Spec_Array (some (.mk payload))) => .ok payload
  | some (.Spec_Array none) => .error .nilDereference
  | _ => .ok none

/-- The method `GetAttr`: the type assertion succeeds on every `*Spec_Attr`, nil or
not, and `x.Attr` is then read through the pointer. -/
def Spec.GetAttr (m : Option Spec) : Except Panic (Option Attr) :=
  match Spec.GetBlock m with
  | some (.Spec_Attr (some (.mk payload))) => .ok payload
  | some (.Spec_Attr none) => .error .nilDereference
  | _ => .ok none

/-- The method `GetBlockValue`: the type assertion succeeds on every `*Spec_BlockValue`, nil or
not, and `x.BlockValue` is then read through the pointer. -/
def Spec.GetBlockValue (m : Option Spec) : Except Panic (Option hclspec.Block) :=
  match Spec.GetBlock m with
  | some (.Spec_BlockValue (some (.mk payload))) => .ok payload
  | some (.Spec_BlockValue none) => .error .nilDereference
  | _ => .ok none

/-- The method `GetBlockList`: the type assertion succeeds on every `*Spec_BlockList`, nil or
not, and `x.BlockList` is then read through the pointer. -/
def Spec.GetBlockList (m : Option Spec) : Except Panic (Option BlockList) :=
  match Spec.GetBlock m with
  | some (.Spec_BlockList (some (.mk payload))) => .ok payload
  | some (.Spec_BlockList none) => .error .nilDereference
  | _ => .ok none

/-- The method `GetBlockSet`: the type assertion succeeds on every `*Spec_BlockSet`, nil or
not, and `x.BlockSet` is then read through the pointer. -/
def Spec.GetBlockSet (m : Option Spec) : Except Panic (Option BlockSet) :=
  match Spec.GetBlock m with
  | some (.Spec_BlockSet (some (.mk payload))) => .ok payload
  | some (.Spec_BlockSet none) => .error .nilDereference
  | _ => .ok none

/-- The method `GetBlockMap`: the type assertion succeeds on every `*Spec_BlockMap`, nil or
not, and `x.BlockMap` is then read through the pointer. -/
def Spec.GetBlockMap (m : Option Spec) : Except Panic (Option BlockMap) :=
  match Spec.GetBlock m with
  | some (.Spec_BlockMap (some (.mk payload))) => .ok payload
  | some (.Spec_BlockMap none) => .error .nilDereference
  | _ => .ok none

/-- The method `GetDefault`: the type assertion succeeds on every `*Spec_Default`, nil or
not, and `x.Default` is then read through the pointer. -/
def Spec.GetDefault (m : Option Spec) : Except Panic (Option Default) :=
  match Spec.GetBlock m with
  | some (.Spec_Default (some (.mk payload))) => .ok payload
  | some (.Spec_Default none) => .error .nilDereference
  | _ => .ok none

/-- The method `GetLiteral`: the type assertion succeeds on every `*Spec_Literal`, nil or
not, and `x.Literal` is then read through the pointer. -/
def Spec.GetLiteral (m : Option Spec) : Except Panic (Option Literal) :=
  match Spec.GetBlock m with
  | some (.Spec_Literal (some (.mk payload))) => .ok payload
  | some (.Spec_Literal none) => .error .nilDereference
  | _ => .ok none

/-! ## Getters of `BlockList` and `BlockSet` -/

/-- The method `(*BlockList).GetName`. -/
def BlockList.GetName : Option BlockList → String
  | some (.mk name _ _ _) => name
  | none => ""

/-- The method `(*BlockList).GetMinItems`. -/
def BlockList.GetMinItems : Option BlockList → Nat
  | some (.mk _ minItems _ _) => minItems
  | none => 0

/-- The method `(*BlockList).GetMaxItems`. -/
def BlockList.GetMaxItems : Option BlockList → Nat
  | some (.mk _ _ maxItems _) => maxItems
  | none => 0

/-- The method `(*BlockList).GetNested`. -/
def BlockList.GetNested : Option BlockList → Option Spec
  | some (.mk _ _ _ nested) => nested
  | none => none

/-- The method `(*BlockSet).GetName`. -/
def BlockSet.GetName : Option BlockSet → String
  | some (.mk name _ _ _) => name
  | none => ""

/-- The method `(*BlockSet).GetMinItems`. -/
def BlockSet.GetMinItems : Option BlockSet → Nat
  | some (.mk _ minItems _ _) => minItems
  | none => 0

/-- The method `(*BlockSet).GetMaxItems`. -/
def BlockSet.GetMaxItems : Option BlockSet → Nat
  | some (.mk _ _ maxItems _) => maxItems
  | none => 0

/-- The method `(*BlockSet).GetNested`. -/
def BlockSet.GetNested : Option BlockSet → Option Spec
  | some (.mk _ _ _ nested) => nested
  | none => none

/-! ## The oneof marshaler and unmarshaler

`proto.Buffer` and its methods `EncodeVarint`, `DecodeVarint`, `EncodeMessage`
and `DecodeMessage` belong to the protobuf library, not to this package.  They
are parameters of the embedding: a `ProtoLib` supplies them, and nothing is
assumed about them except where a theorem says so. -/

/-- The bytes held by a `proto.Buffer`: written at the end, read from the front. -/
abbrev Buffer := List Nat

/-- A Go `error` value, identified by its message. -/
abbrev Error := String

/-- The library constant `proto.WireBytes`. -/
def WireBytes : Nat := 2

/-- The library error `proto.ErrInternalBadWireType`. -/
def ErrInternalBadWireType : Error := "proto: internal error: bad wiretype for oneof"

/-- The library's `EncodeMessage` and `DecodeMessage` at one message type.
`EncodeMessage pb b` is `b.EncodeMessage(pb)`: the buffer afterwards and the
error returned.  `DecodeMessage msg b` is `b.DecodeMessage(msg)`: the message
that `msg` points to afterwards, the buffer afterwards and the error returned. -/
structure Codec (α : Type) where
  EncodeMessage : Option α → Buffer → Buffer × Option Error
  DecodeMessage : α → Buffer → α × Buffer × Option Error

/-- The operations of the protobuf library used by this package. -/
structure ProtoLib where
  EncodeVarint : Nat → Buffer → Buffer
  DecodeVarint : Buffer → Option (Nat × Buffer)
  Object : Codec Object
  Array : Codec Array
  Attr : Codec Attr
  Block : Codec Block
  BlockList : Codec BlockList
  BlockSet : Codec BlockSet
  BlockMap : Codec BlockMap
  Default : Codec Default
  Literal : Codec Literal

/-- The function `_Spec_OneofMarshaler`: the buffer afterwards and the error
returned.  Each arm of the type switch reads the payload through the wrapper
pointer `x`, so a nil wrapper pointer panics.  The `default` arm is unreachable,
the nine wrapper types being the only implementations of `isSpec_Block`. -/
def _Spec_OneofMarshaler (L : ProtoLib) (m : Spec) (b : Buffer) :
    Except Panic (Buffer × Option Error) :=
  match m.Block with
  | some (.Spec_Object (some (.mk payload))) =>
    .ok (L.Object.EncodeMessage payload (L.EncodeVarint (1 <<< 3 ||| WireBytes) b))
  | some (.Spec_Object none) => .error .nilDereference
  | some (.Spec_Array (some (.mk payload))) =>
    .ok (L.Array.EncodeMessage payload (L.EncodeVarint (2 <<< 3 ||| WireBytes) b))
  | some (.Spec_Array none) => .error .nilDereference
  | some (.Spec_Attr (some (.mk payload))) =>
    .ok (L.Attr.EncodeMessage payload (L.EncodeVarint (3 <<< 3 ||| WireBytes) b))
  | some (.Spec_Attr none) => .error .nilDereference
  | some (.Spec_BlockValue (some (.mk payload))) =>
    .ok (L.Block.EncodeMessage payload (L.EncodeVarint (4 <<< 3 ||| WireBytes) b))
  | some (.Spec_BlockValue none) => .error .nilDereference
  | some (.Spec_BlockList (some (.mk payload))) =>
    .ok (L.BlockList.EncodeMessage payload (L.EncodeVarint (5 <<< 3 ||| WireBytes) b))
  | some (.Spec_BlockList none) => .error .nilDereference
  | some (.Spec_BlockSet (some (.mk payload))) =>
    .ok (L.BlockSet.EncodeMessage payload (L.EncodeVarint (6 <<< 3 ||| WireBytes) b))
  | some (.Spec_BlockSet none) => .error .nilDereference
  | some (.Spec_BlockMap (some (.mk payload))) =>
    .ok (L.BlockMap.EncodeMessage payload (L.EncodeVarint (7 <<< 3 ||| WireBytes) b))
  | some (.Spec_BlockMap none) => .error .nilDereference
  | some (.Spec_Default (some (.mk payload))) =>
    .ok (L.Default.EncodeMessage payload (L.EncodeVarint (8 <<< 3 ||| WireBytes) b))
  | some (.Spec_Default none) => .error .nilDereference
  | some (.Spec_Literal (some (.mk payload))) =>
    .ok (L.Literal.EncodeMessage payload (L.EncodeVarint (9 <<< 3 ||| WireBytes) b))
  | some (.Spec_Literal none) => .error .nilDereference
  | none => .ok (b, none)

/-- What `_Spec_OneofUnmarshaler` leaves behind: the message `m` afterwards,
the buffer afterwards, and the two returned values. -/
structure UnmarshalResult where
  m : Spec
  b : Buffer
  handled : Bool
  err : Option Error

/-- One arm of the `switch tag` of `_Spec_OneofUnmarshaler`: reject a wire type
other than `WireBytes`, else decode into a fresh message `new(T)` and assign a
pointer to a new wrapper record around it to `m.Block`, whatever error the
decoding returned.  `wrap msg` is `&Spec_X{msg}`. -/
def unmarshalArm {α : Type} (c : Codec α) (zero : α) (wrap : Option α → isSpec_Block)
    (m : Spec) (wire : Int) (b : Buffer) : UnmarshalResult :=
  if wire ≠ (WireBytes : Int) then
    { m := m, b := b, handled := true, err := some ErrInternalBadWireType }
  else
    let r := c.DecodeMessage zero b
    { m := Spec.mk (some (wrap (some r.1))), b := r.2.1, handled := true, err := r.2.2 }

/-- The function `_Spec_OneofUnmarshaler`. -/
def _Spec_OneofUnmarshaler (L : ProtoLib) (m : Spec) (tag wire : Int) (b : Buffer) :
    UnmarshalResult :=
  if tag = 1 then unmarshalArm L.Object (Object.mk [])
    (fun msg => .Spec_Object (some (.mk msg))) m wire b
  else if tag = 2 then unmarshalArm L.Array (Array.mk [])
    (fun msg => .Spec_Array (some (.mk msg))) m wire b
  else if tag = 3 then unmarshalArm L.Attr { Name := "", Type_ := "", Required := false }
    (fun msg => .Spec_Attr (some (.mk msg))) m wire b
  else if tag = 4 then unmarshalArm L.Block (Block.mk "" false none)
    (fun msg => .Spec_BlockValue (some (.mk msg))) m wire b
  else if tag = 5 then unmarshalArm L.BlockList (BlockList.mk "" 0 0 none)
    (fun msg => .Spec_BlockList (some (.mk msg))) m wire b
  else if tag = 6 then unmarshalArm L.BlockSet (BlockSet.mk "" 0 0 none)
    (fun msg => .Spec_BlockSet (some (.mk msg))) m wire b
  else if tag = 7 then unmarshalArm L.BlockMap (BlockMap.mk "" [] none)
    (fun msg => .Spec_BlockMap (some (.mk msg))) m wire b
  else if tag = 8 then unmarshalArm L.Default (Default.mk none none)
    (fun msg => .Spec_Default (some (.mk msg))) m wire b
  else if tag = 9 then unmarshalArm L.Literal { Value := "" }
    (fun msg => .Spec_Literal (some (.mk msg))) m wire b
  else { m := m, b := b, handled := false, err := none }

end hclspec

namespace structs

/-! ## The Consul Connect stanzas of `consul.go` -/

/-- A run-time panic of the Go program. -/
inductive Panic where
  | nilDereference
  deriving DecidableEq, Repr

/-- A Go `error` value, identified by its message. -/
abbrev Error := String

/-- A Go `map[string]interface{}`: `none` is the nil map, `some kvs` a non-nil
map with the entries `kvs`, one per key.  The values `interface{}` are opaque to
this package and are a type parameter `V`; `v == w` on `V` stands for
`reflect.DeepEqual(v, w)` and is not assumed to be reflexive, a value such as
NaN being unequal to itself. -/
abbrev GoMap (V : Type) := Option (List (String × V))

/-- The builtin `len` on a map. -/
def GoMap.len {V : Type} : GoMap V → Nat
  | none => 0
  | some kvs => kvs.length

/-- The entries visited by `for k, v := range m`. -/
def GoMap.entries {V : Type} : GoMap V → List (String × V)
  | none => []
  | some kvs => kvs

/-- The statement `m[k] = v` on a non-nil map with entries `m`. -/
def GoMap.assign {V : Type} (m : List (String × V)) (k : String) (v : V) : List (String × V) :=
  if m.any (fun kv => kv.1 == k) then m.map (fun kv => if kv.1 == k then (k, v) else kv)
  else m ++ [(k, v)]

/-- The library function `reflect.DeepEqual` on two maps: both nil or both
non-nil, the same length, and every key of the first bound in the second to a
deeply equal value. -/
def DeepEqual {V : Type} [BEq V] (a b : GoMap V) : Bool :=
  match a, b with
  | none, none => true
  | some x, some y => x.length == y.length && x.all (fun kv => y.lookup kv.1 == some kv.2)
  | _, _ => false

/-- ConsulUpstream stanza. -/
structure ConsulUpstream where
  DestinationName : String
  LocalBindPort : Int
  deriving DecidableEq, Repr

/-- ConsulProxy stanza. -/
structure ConsulProxy (V : Type) where
  Upstreams : List (Option ConsulUpstream)
  Config : GoMap V

/-- ConsulSidecarService stanza. -/
structure ConsulSidecarService (V : Type) where
  Port : String
  Proxy : Option (ConsulProxy V)

/-- ConsulConnect stanza. -/
structure ConsulConnect (V : Type) where
  Native : Bool
  SidecarService : Option (ConsulSidecarService V)

/-- The method `(*ConsulUpstream).Copy`. -/
def ConsulUpstream.Copy (u : Option ConsulUpstream) : Option ConsulUpstream :=
  match u with
  | none => none
  | some u => some { DestinationName := u.DestinationName, LocalBindPort := u.LocalBindPort }

/-- The method `(*ConsulUpstream).Equals`: pointer comparison when either side
is nil, else comparison of the two records. -/
def ConsulUpstream.Equals (u o : Option ConsulUpstream) : Bool :=
  match u, o with
  | none, none => true
  | none, some _ => false
  | some _, none => false
  | some u, some o => decide (u = o)

/-- The method `(*ConsulProxy).Copy`. -/
def ConsulProxy.Copy {V : Type} (p : Option (ConsulProxy V)) : Option (ConsulProxy V) :=
  match p with
  | none => none
  | some p =>
    let ups : List (Option ConsulUpstream) :=
      if p.Upstreams.length > 0 then p.Upstreams.map ConsulUpstream.Copy else []
    let cfg : GoMap V :=
      if p.Config.len > 0 then
        some (p.Config.entries.foldl (fun newConfig kv => GoMap.assign newConfig kv.1 kv.2) [])
      else none
    some { Upstreams := ups, Config := cfg }

/-- The inner loop of `(*ConsulProxy).Equals`: does some `innerUp` of
`o.Upstreams` satisfy `up.Equals(innerUp)`. -/
def ConsulProxy.matchInner (up : Option ConsulUpstream) : List (Option ConsulUpstream) → Bool
  | [] => false
  | innerUp :: rest =>
    if ConsulUpstream.Equals up innerUp then true else ConsulProxy.matchInner up rest

/-- The loop labelled `OUTER` of `(*ConsulProxy).Equals`: `false` as soon as an
upstream of `p` has no match in `o.Upstreams`. -/
def ConsulProxy.matchOuter : List (Option ConsulUpstream) → List (Option ConsulUpstream) → Bool
  | [], _ => true
  | up :: rest, os =>
    if ConsulProxy.matchInner up os then ConsulProxy.matchOuter rest os else false

/-- The method `(*ConsulProxy).Equals`.  The debugging line `fmt.Println` only
writes to standard output and is left out. -/
def ConsulProxy.Equals {V : Type} [BEq V] (p o : Option (ConsulProxy V)) : Bool :=
  match p, o with
  | none, none => true
  | none, some _ => false
  | some _, none => false
  | some p, some o =>
    if p.Upstreams.length ≠ o.Upstreams.length then false
    else if !ConsulProxy.matchOuter p.Upstreams o.Upstreams then false
    else if p.Config.len ≠ 0 ∧ o.Config.len ≠ 0 then
      if !DeepEqual p.Config o.Config then false else true
    else true

/-- The method `(*ConsulSidecarService).Copy`.  It reads `s.Port` without a nil
check, so a nil receiver panics. -/
def ConsulSidecarService.Copy {V : Type} (s : Option (ConsulSidecarService V)) :
    Except Panic (Option (ConsulSidecarService V)) :=
  match s with
  | none => .error .nilDereference
  | some s => .ok (some { Port := s.Port, Proxy := ConsulProxy.Copy s.Proxy })

/-- The method `(*ConsulSidecarService).Equals`. -/
def ConsulSidecarService.Equals {V : Type} [BEq V]
    (s o : Option (ConsulSidecarService V)) : Bool :=
  match s, o with
  | none, none => true
  | none, some _ => false
  | some _, none => false
  | some s, some o =>
    if s.Port ≠ o.Port then false else ConsulProxy.Equals s.Proxy o.Proxy

/-- The method `(*ConsulConnect).Copy`. -/
def ConsulConnect.Copy {V : Type} (c : Option (ConsulConnect V)) :
    Except Panic (Option (ConsulConnect V)) :=
  match c with
  | none => .ok none
  | some c =>
    match ConsulSidecarService.Copy c.SidecarService with
    | .error e => .error e
    | .ok sc => .ok (some { Native := c.Native, SidecarService := sc })

/-- The method `(*ConsulConnect).Equals`. -/
def ConsulConnect.Equals {V : Type} [BEq V] (c o : Option (ConsulConnect V)) : Bool :=
  match c, o with
  | none, none => true
  | none, some _ => false
  | some _, none => false
  | some c, some o =>
    if c.Native ≠ o.Native then false
    else ConsulSidecarService.Equals c.SidecarService o.SidecarService

/-- The first error of `(*ConsulConnect).Validate`. -/
def errNotBoth : Error := "Consul Connect must be native or use a sidecar service; not both"

/-- The second error of `(*ConsulConnect).Validate`. -/
def errNeither : Error := "Consul Connect must be native or use a sidecar service"

/-- The method `(*ConsulConnect).Validate`: the returned `error`, `none` being
the nil error.  It reads `c.Native` without a nil check. -/
def ConsulConnect.Validate {V : Type} (c : Option (ConsulConnect V)) :
    Except Panic (Option Error) :=
  match c with
  | none => .error .nilDereference
  | some c =>
    if c.Native ∧ c.SidecarService.isSome then .ok (some errNotBoth)
    else if ¬ c.Native ∧ c.SidecarService.isNone then .ok (some errNeither)
    else .ok none

end structs

namespace hclspec

/-! ## The decode engine

The decode engine (`Decode`), the decoded `Value`, the `Body` abstraction and
the diagnostics are described by the specification but are not part of the
source files; the source only declares the messages above and documents them.
The definitions of this section are modelled from the specification. -/

/-- Modelled from the spec: the decoded Value (§3), which the source does not
declare: null, boolean, number, string, ordered sequence of Value, keyed mapping
from string to Value, or the unordered collection that a BlockSet produces
(§3 "sets (from BlockSet)", §4.3).  A mapping is held as the list of its
entries and a set as the list of its elements; the order of either list carries
no meaning, and `Value.equal` ignores it. -/
inductive Value : Type where
  | null
  | bool (b : Bool)
  | number (n : Int)
  | string (s : String)
  | sequence (vs : List Value)
  | mapping (kvs : List (String × Value))
  | set (elements : List Value)

mutual
/-- Modelled from the spec: structural equality on Value (§3), which the source
does not declare: two sequences are equal iff they have the same length with
pairwise-equal elements in order; two mappings iff they have the same key set
with pairwise-equal values; two sets iff they have the same elements, ignoring
order.  For a mapping or a set each side must be covered by the other. -/
def Value.equal : Value → Value → Bool
  | .null, .null => true
  | .bool a, .bool b => a == b
  | .number a, .number b => a == b
  | .string a, .string b => a == b
  | .sequence as, .sequence bs => Value.equalSeq as bs
  | .mapping as, .mapping bs =>
    Value.entriesWithin as bs && bs.all (fun e => Value.bindsEqual as e.1 e.2)
  | .set as, .set bs =>
    Value.elementsWithin as bs && bs.all (fun w => Value.holdsEqual as w)
  | _, _ => false
termination_by structural a => a
/-- Two sequences have the same length with pairwise-equal elements in order. -/
def Value.equalSeq : List Value → List Value → Bool
  | [], [] => true
  | a :: as, b :: bs => Value.equal a b && Value.equalSeq as bs
  | _, _ => false
termination_by structural a => a
/-- Every entry of the first mapping has its key bound to an equal value in the
second. -/
def Value.entriesWithin : List (String × Value) → List (String × Value) → Bool
  | [], _ => true
  | (k, v) :: as, bs =>
    bs.any (fun e => k == e.1 && Value.equal v e.2) && Value.entriesWithin as bs
termination_by structural a => a
/-- Some entry of the mapping binds the key `k` to a value equal to `w`. -/
def Value.bindsEqual : List (String × Value) → String → Value → Bool
  | [], _, _ => false
  | (k', v) :: as, k, w => (k' == k && Value.equal v w) || Value.bindsEqual as k w
termination_by structural a => a
/-- Every element of the first set has an equal element in the second. -/
def Value.elementsWithin : List Value → List Value → Bool
  | [], _ => true
  | v :: as, bs => bs.any (fun w => Value.equal v w) && Value.elementsWithin as bs
termination_by structural a => a
/-- Some element of the set is equal to `w`. -/
def Value.holdsEqual : List Value → Value → Bool
  | [], _ => false
  | v :: as, w => Value.equal v w || Value.holdsEqual as w
termination_by structural a => a
end

/-- Whether a Value is the null value. -/
def Value.isNull : Value → Bool
  | .null => true
  | _ => false

/-- The order of keys in the entries of a mapping: the lexicographic order of
their characters. -/
def keyBefore : List Char → List Char → Bool
  | [], [] => false
  | [], _ :: _ => true
  | _ :: _, [] => false
  | a :: as, b :: bs =>
    if a.toNat < b.toNat then true
    else if a.toNat = b.toNat then keyBefore as bs
    else false

/-- Modelled from the spec: binding key `k` to `v` in the entries of a mapping
(§3, keys unique), which the source does not declare.  An entry with the same
key is overwritten; a new key is inserted at its place in the order of keys. -/
def Value.setKey (k : String) (v : Value) : List (String × Value) → List (String × Value)
  | [] => [(k, v)]
  | (k', v') :: rest =>
    if keyBefore k.toList k'.toList then (k, v) :: (k', v') :: rest
    else if k = k' then (k, v) :: rest
    else (k', v') :: Value.setKey k v rest

/-- Modelled from the spec: the kinds of decode-time diagnostics (§7), which the
source does not declare. -/
inductive DiagnosticKind where
  | missingRequiredAttribute
  | invalidValue
  | missingRequiredBlock
  | duplicateBlock
  | cardinality
  | labelCountMismatch
  deriving DecidableEq, Repr

/-- Modelled from the spec: a Diagnostic (glossary), which the source does not
declare: its kind and the attribute or block type name it is about.  The
message and the path are presentation and are left out. -/
structure Diagnostic where
  kind : DiagnosticKind
  name : String
  deriving DecidableEq, Repr

/-- Modelled from the spec: the diagnostics that make a subtree "present but
invalid" rather than genuinely absent (§4.3 Default, §9), a classification the
source does not declare: the subtree is there and malformed.  The two
missing-required kinds report an absence. -/
def Diagnostic.presentButInvalid (d : Diagnostic) : Bool :=
  match d.kind with
  | .invalidValue => true
  | .duplicateBlock => true
  | .cardinality => true
  | .labelCountMismatch => true
  | .missingRequiredAttribute => false
  | .missingRequiredBlock => false

/-- One block of a body: its type name, its header labels and its nested body. -/
structure BodyBlock (B : Type) where
  typeName : String
  labels : List String
  body : B

/-- Modelled from the spec: the Body abstraction (§4.2), which the source does
not declare: named attributes holding raw expressions of type `E`, and blocks
in encounter order. -/
inductive Body (E : Type) : Type where
  | mk (attributes : List (String × E)) (blocks : List (BodyBlock (Body E)))

/-- Modelled from the spec: `GetAttribute(name)` (§4.2), which the source does
not declare: the expression of the named attribute, `none` when not present. -/
def Body.GetAttribute {E : Type} (name : String) : Body E → Option E
  | .mk attributes _ => attributes.lookup name

/-- Modelled from the spec: `GetBlocks(typeName)` (§4.2), which the source does
not declare: the blocks of the given type, in encounter order. -/
def Body.GetBlocks {E : Type} (typeName : String) : Body E → List (BodyBlock (Body E))
  | .mk _ blocks => blocks.filter (fun b => b.typeName == typeName)

/-- Modelled from the spec: the capability `Evaluate(expression, targetType)`
(§6) consumed from the type and expression collaborator, which the source does
not declare: the converted value or a conversion error. -/
abbrev Evaluator (E : Type) := E → String → Except String Value

/-- Modelled from the spec: the Spec tree as the closed tagged union of §3 and
§9, one constructor per message of the source with the fields of that message,
every nested spec present.  The source declares the messages only as records
with optional pointers; a `Literal` here carries its fixed value. -/
inductive SpecNode : Type where
  | Object (Attributes : List (String × SpecNode))
  | Array (Values : List SpecNode)
  | Attr (Name : String) (Type_ : String) (Required : Bool)
  | Block (Name : String) (Required : Bool) (Nested : SpecNode)
  | BlockList (Name : String) (MinItems : Nat) (MaxItems : Nat) (Nested : SpecNode)
  | BlockSet (Name : String) (MinItems : Nat) (MaxItems : Nat) (Nested : SpecNode)
  | BlockMap (Name : String) (Labels : List String) (Nested : SpecNode)
  | Default (Primary : SpecNode) (Default : SpecNode)
  | Literal (Value : Value)

/-- Modelled from the spec: the name selector of a spec (§4.3 Attr and Object),
which the source only documents: the explicit name, or the key under which the
spec appears inside a parent Object when the name is omitted. -/
def selectName (defaultName name : String) : String :=
  if name = "" then defaultName else name

/-- Modelled from the spec: the cardinality rule of BlockList and BlockSet
(§4.3), which the source only documents: a diagnostic when the count is below
`minItems`, or above `maxItems` with `maxItems > 0`. -/
def cardinalityDiagnostics (name : String) (minItems maxItems count : Nat) : List Diagnostic :=
  if count < minItems ∨ (maxItems > 0 ∧ count > maxItems) then
    [{ kind := .cardinality, name := name }]
  else []

/-- Modelled from the spec: de-duplication by structural value equality, later
duplicates dropped (§4.3 BlockSet), which the source only documents.  `seen`
holds the values kept so far. -/
def dedupInto (seen : List Value) : List Value → List Value
  | [] => seen
  | v :: vs =>
    if seen.any (fun w => Value.equal w v) then dedupInto seen vs
    else dedupInto (seen ++ [v]) vs

/-- Modelled from the spec: insertion into a nested mapping keyed progressively
by each label value, the last label mapping directly to the decoded value
(§4.3 BlockMap), which the source only documents.  A repeated label path
overwrites the earlier entry. -/
def insertPath : List String → Value → List (String × Value) → List (String × Value)
  | [], _, m => m
  | [l], v, m => Value.setKey l v m
  | l :: l' :: ls, v, m =>
    Value.setKey l
      (.mapping (insertPath (l' :: ls) v
        (match m.lookup l with
         | some (.mapping sub) => sub
         | _ => []))) m

mutual
/-- Modelled from the spec: the per-variant evaluation rule of the decode engine
(§4.3), which is not in the source.  `defaultName` is the key under which the
spec appears inside a parent Object, `""` elsewhere. -/
def decodeNode {E : Type} (Evaluate : Evaluator E) (defaultName : String) :
    SpecNode → Body E → Value × List Diagnostic
  | .Attr name type required, body =>
    match body.GetAttribute (selectName defaultName name) with
    | none =>
      if required then
        (.null, [{ kind := .missingRequiredAttribute, name := selectName defaultName name }])
      else (.null, [])
    | some expression =>
      match Evaluate expression type with
      | .ok v => (v, [])
      | .error _ => (.null, [{ kind := .invalidValue, name := selectName defaultName name }])
  | .Literal value, _ => (value, [])
  | .Object attributes, body =>
    let r := decodeObject Evaluate attributes body
    (.mapping r.1, r.2)
  | .Array values, body =>
    let r := decodeArray Evaluate values body
    (.sequence r.1, r.2)
  | .Block name required nested, body =>
    match body.GetBlocks (selectName defaultName name) with
    | [] =>
      if required then
        (.null, [{ kind := .missingRequiredBlock, name := selectName defaultName name }])
      else (.null, [])
    | [b] => decodeNode Evaluate "" nested b.body
    | _ :: _ :: _ => (.null, [{ kind := .duplicateBlock, name := selectName defaultName name }])
  | .BlockList name minItems maxItems nested, body =>
    let blocks := body.GetBlocks (selectName defaultName name)
    let rs := blocks.map (fun b => decodeNode Evaluate "" nested b.body)
    (.sequence (rs.map Prod.fst),
      cardinalityDiagnostics (selectName defaultName name) minItems maxItems blocks.length
        ++ (rs.map Prod.snd).flatten)
  | .BlockSet name minItems maxItems nested, body =>
    let blocks := body.GetBlocks (selectName defaultName name)
    let rs := blocks.map (fun b => decodeNode Evaluate "" nested b.body)
    (.set (dedupInto [] (rs.map Prod.fst)),
      cardinalityDiagnostics (selectName defaultName name) minItems maxItems blocks.length
        ++ (rs.map Prod.snd).flatten)
  | .BlockMap name labels nested, body =>
    let blocks := body.GetBlocks (selectName defaultName name)
    (.mapping
        ((blocks.filter (fun b => b.labels.length == labels.length)).foldl
          (fun m b => insertPath b.labels (decodeNode Evaluate "" nested b.body).1 m) []),
      (blocks.map (fun b =>
        if b.labels.length == labels.length then (decodeNode Evaluate "" nested b.body).2
        else [{ kind := .labelCountMismatch, name := selectName defaultName name }])).flatten)
  | .Default primary fallback, body =>
    let p := decodeNode Evaluate defaultName primary body
    if p.1.isNull ∧ ¬ p.2.any Diagnostic.presentButInvalid then
      decodeNode Evaluate defaultName fallback body
    else p
/-- The Object rule: each nested spec is decoded against the same body, in
declared order, into a mapping keyed by its key; the diagnostics are
concatenated. -/
def decodeObject {E : Type} (Evaluate : Evaluator E) :
    List (String × SpecNode) → Body E → List (String × Value) × List Diagnostic
  | [], _ => ([], [])
  | (key, nestedSpec) :: rest, body =>
    let r := decodeNode Evaluate key nestedSpec body
    let rs := decodeObject Evaluate rest body
    (Value.setKey key r.1 rs.1, r.2 ++ rs.2)
/-- The Array rule: each element spec is decoded against the same body, in
declared order; the diagnostics are concatenated in order. -/
def decodeArray {E : Type} (Evaluate : Evaluator E) :
    List SpecNode → Body E → List Value × List Diagnostic
  | [], _ => ([], [])
  | elementSpec :: rest, body =>
    let r := decodeNode Evaluate "" elementSpec body
    let rs := decodeArray Evaluate rest body
    (r.1 :: rs.1, r.2 ++ rs.2)
end

/-- Modelled from the spec: `Decode(spec, body)` (§4.3), which is not in the
source: the decoded value and the diagnostics. -/
def Decode {E : Type} (Evaluate : Evaluator E) (spec : SpecNode) (body : Body E) :
    Value × List Diagnostic :=
  decodeNode Evaluate "" spec body

end hclspec

/-! # Specification vocabulary -/

namespace hclspec

/-- Whether the result of an accessor is a non-nil payload. -/
def returnsPayload {α : Type} : Except Panic (Option α) → Bool
  | .ok (some _) => true
  | _ => false

/-- The number of the nine accessors that return a non-nil payload on `m`. -/
def populated (m : Option Spec) : Nat :=
  (returnsPayload (Spec.GetObject m)).toNat + (returnsPayload (Spec.GetArray m)).toNat
    + (returnsPayload (Spec.GetAttr m)).toNat + (returnsPayload (Spec.GetBlockValue m)).toNat
    + (returnsPayload (Spec.GetBlockList m)).toNat + (returnsPayload (Spec.GetBlockSet m)).toNat
    + (returnsPayload (Spec.GetBlockMap m)).toNat + (returnsPayload (Spec.GetDefault m)).toNat
    + (returnsPayload (Spec.GetLiteral m)).toNat

/-- Whether an interface value holds a non-nil wrapper pointer whose payload
pointer is non-nil. -/
def isSpec_Block.hasPayload : isSpec_Block → Bool
  | .Spec_Object (some (.mk payload)) => payload.isSome
  | .Spec_Array (some (.mk payload)) => payload.isSome
  | .Spec_Attr (some (.mk payload)) => payload.isSome
  | .Spec_BlockValue (some (.mk payload)) => payload.isSome
  | .Spec_BlockList (some (.mk payload)) => payload.isSome
  | .Spec_BlockSet (some (.mk payload)) => payload.isSome
  | .Spec_BlockMap (some (.mk payload)) => payload.isSome
  | .Spec_Default (some (.mk payload)) => payload.isSome
  | .Spec_Literal (some (.mk payload)) => payload.isSome
  | _ => false

/-- The contract of one accessor `get` at the receiver `m`, for the variant
whose interface values are `ptr x` with `x` the wrapper pointer, and whose
wrapper record around a payload is `wrapper payload`:

* the wrapped payload when `m` is non-nil and `m.Block` holds a non-nil pointer
  to that variant's wrapper;
* a nil dereference when `m.Block` holds the nil pointer of that variant's
  wrapper type;
* nil in every other case: nil receiver, nil `Block`, or `Block` holding a
  pointer, nil or not, to one of the other eight wrappers. -/
def AccessorContract {α W : Type} (get : Option Spec → Except Panic (Option α))
    (ptr : Option W → isSpec_Block) (wrapper : Option α → W) (m : Option Spec) : Prop :=
  (∀ payload, m = some (Spec.mk (some (ptr (some (wrapper payload))))) → get m = .ok payload) ∧
  (m = some (Spec.mk (some (ptr none))) → get m = .error .nilDereference) ∧
  ((∀ x, m ≠ some (Spec.mk (some (ptr x)))) → get m = .ok none)

/-- The wire contract of one variant of the oneof: `n` is its field number,
`wrap` its wrapper, `c` the library's codec at its payload type and `zero` the
fresh message `new(T)`.

* The marshaler, on a non-nil wrapper pointer `wrap x` = `&Spec_X{x}`, writes the
  key `n<<3 | WireBytes` and then encodes the payload.
* The unmarshaler, given tag `n` and wire type `WireBytes`, assigns the wrapper
  of the same variant around the decoded message and returns the decoder's error.
* If the library reads back the key it wrote and decodes the payload it encoded,
  then reading the field written by the marshaler into any `m0` leaves `m0` with
  the same wrapper around an equal payload.  The library splits the key into
  tag `key >> 3` and wire type `key & 7` before calling the unmarshaler. -/
def VariantWire {α : Type} (L : ProtoLib) (c : Codec α) (zero : α)
    (wrap : Option α → isSpec_Block) (n : Nat) : Prop :=
  (∀ (x : Option α) (b : Buffer),
    _Spec_OneofMarshaler L (Spec.mk (some (wrap x))) b
      = .ok (c.EncodeMessage x (L.EncodeVarint (n <<< 3 ||| WireBytes) b))) ∧
  (∀ (m0 : Spec) (r : Buffer),
    _Spec_OneofUnmarshaler L m0 (n : Int) (WireBytes : Int) r
      = { m := Spec.mk (some (wrap (some (c.DecodeMessage zero r).1))),
          b := (c.DecodeMessage zero r).2.1,
          handled := true,
          err := (c.DecodeMessage zero r).2.2 }) ∧
  (∀ (p : α) (m0 : Spec) (b1 r r' : Buffer),
    c.EncodeMessage (some p) (L.EncodeVarint (n <<< 3 ||| WireBytes) []) = (b1, none) →
    L.DecodeVarint b1 = some (n <<< 3 ||| WireBytes, r) →
    c.DecodeMessage zero r = (p, r', none) →
    _Spec_OneofMarshaler L (Spec.mk (some (wrap (some p)))) [] = .ok (b1, none) ∧
    ∃ key, L.DecodeVarint b1 = some (key, r) ∧
      _Spec_OneofUnmarshaler L m0 ((key >>> 3 : Nat) : Int) ((key &&& 7 : Nat) : Int) r
        = { m := Spec.mk (some (wrap (some p))), b := r', handled := true, err := none })

/-- A codec that writes nothing and decodes to the message it is given. -/
def sampleCodec (α : Type) : Codec α where
  EncodeMessage := fun _ b => (b, none)
  DecodeMessage := fun msg b => (msg, b, none)

/-- A small instance of the library, to exercise the theorems on concrete input:
a varint below 128 is one byte; a `Literal` is written as the length of `Value`
followed by its characters; the other messages use `sampleCodec`. -/
def sampleLib : ProtoLib where
  EncodeVarint := fun x b => b ++ [x]
  DecodeVarint := fun b =>
    match b with
    | [] => none
    | x :: r => some (x, r)
  Object := sampleCodec Object
  Array := sampleCodec Array
  Attr := sampleCodec Attr
  Block := sampleCodec Block
  BlockList := sampleCodec BlockList
  BlockSet := sampleCodec BlockSet
  BlockMap := sampleCodec BlockMap
  Default := sampleCodec Default
  Literal :=
    { EncodeMessage := fun pb b =>
        match pb with
        | none => (b, some "nil message")
        | some l => (b ++ l.Value.length :: l.Value.toList.map Char.toNat, none)
      DecodeMessage := fun msg b =>
        match b with
        | [] => (msg, b, some "unexpected EOF")
        | k :: r => ({ Value := String.mk ((r.take k).map Char.ofNat) }, r.drop k, none) }

/-- A `BlockList` with both bounds set and `MaxItems < MinItems`. -/
def invertedBlockList : BlockList := BlockList.mk "log_file" 2 1 none

/-- A `BlockSet` with both bounds set and `MaxItems < MinItems`. -/
def invertedBlockSet : BlockSet := BlockSet.mk "log_file" 2 1 none

end hclspec

namespace structs

/-- Two maps hold the same keys with equal values, a nil map and an empty map
counting as the same: every key is bound alike in both. -/
def GoMap.sameEntries {V : Type} (a b : GoMap V) : Prop :=
  ∀ k : String, a.entries.lookup k = b.entries.lookup k

/-- Well-formedness of the association list that stands for a Go map: one entry
per key. -/
def GoMap.WF {V : Type} (m : GoMap V) : Prop :=
  (m.entries.map Prod.fst).Nodup

/-- Every value of the map is deeply equal to itself: the map holds no value
such as NaN. -/
def GoMap.SelfEqual {V : Type} [BEq V] (m : GoMap V) : Prop :=
  ∀ kv ∈ m.entries, (kv.2 == kv.2) = true

/-- The upstream `db` on port 8000. -/
def upstreamDb : ConsulUpstream := { DestinationName := "db", LocalBindPort := 8000 }

/-- The upstream `cache` on port 8001. -/
def upstreamCache : ConsulUpstream := { DestinationName := "cache", LocalBindPort := 8001 }

end structs

namespace hclspec

/-- The value found in the entries `m` of a nested mapping by following a label
path, one key per level. -/
def lookupPath : List String → List (String × Value) → Option Value
  | [], _ => none
  | [l], m => m.lookup l
  | l :: l' :: ls, m =>
    match m.lookup l with
    | some (.mapping sub) => lookupPath (l' :: ls) sub
    | _ => none

/-- The number written by a list of decimal digits, continuing from `acc`. -/
def digitsValue (acc : Nat) : List Char → Option Nat
  | [] => some acc
  | c :: cs => if c.isDigit then digitsValue (acc * 10 + (c.toNat - 48)) cs else none

/-- A small instance of the evaluator, to exercise the theorems on concrete
input.  Expressions are literal values.  The empty type and `any` accept every
value, null is a value of every type, `bool`, `number` and `string` accept
their own values, and `number` converts a string of decimal digits. -/
def sampleEvaluate : Evaluator Value := fun expression type =>
  if type = "" ∨ type = "any" then .ok expression
  else
    match expression with
    | .null => .ok .null
    | .bool b => if type = "bool" then .ok (.bool b) else .error "bool required"
    | .number n => if type = "number" then .ok (.number n) else .error "number required"
    | .string s =>
      if type = "string" then .ok (.string s)
      else if type = "number" then
        match s.toList with
        | [] => .error "number required"
        | c :: cs =>
          match digitsValue 0 (c :: cs) with
          | some n => .ok (.number n)
          | none => .error "number required"
      else .error "type mismatch"
    | _ => .error "type mismatch"

/-- A body with no attribute and no block. -/
def emptyBody : Body Value := .mk [] []

/-- A body with the single attribute `x = e`. -/
def bodyWithX (e : Value) : Body Value := .mk [("x", e)] []

/-- A block of the given type with the given labels, whose body is `x = e`. -/
def blockWithX (typeName : String) (labels : List String) (e : Value) : BodyBlock (Body Value) :=
  { typeName := typeName, labels := labels, body := bodyWithX e }

/-- A body with `count` blocks of type `tag`, each with the body `x = "a"`. -/
def bodyOfCount (count : Nat) : Body Value :=
  .mk [] (List.replicate count (blockWithX "tag" [] (.string "a")))

/-- A body with one `tag` block whose body is empty. -/
def bodyOneEmptyTag : Body Value :=
  .mk [] [{ typeName := "tag", labels := [], body := emptyBody }]

/-- A body with two `group` blocks that hold the same two `tag` blocks, in the
order `a`, `b` in the first and `b`, `a` in the second. -/
def bodyTwoGroups : Body Value :=
  .mk []
    [{ typeName := "group", labels := [],
       body := .mk [] [blockWithX "tag" [] (.string "a"), blockWithX "tag" [] (.string "b")] },
     { typeName := "group", labels := [],
       body := .mk [] [blockWithX "tag" [] (.string "b"), blockWithX "tag" [] (.string "a")] }]

/-- A body with two `site` blocks that carry the same label `us` and differ in
their attribute `x`. -/
def bodyRepeatedLabel : Body Value :=
  .mk [] [blockWithX "site" ["us"] (.number 1), blockWithX "site" ["us"] (.number 2)]

/-- A body with two `site` blocks labelled `(us, a)` and `(us, b)`. -/
def bodyTwoZones : Body Value :=
  .mk [] [blockWithX "site" ["us", "a"] (.number 1), blockWithX "site" ["us", "b"] (.number 2)]

/-- A body with three `tag` blocks, the first two structurally identical. -/
def bodyThreeTags : Body Value :=
  .mk [] [blockWithX "tag" [] (.string "a"), blockWithX "tag" [] (.string "a"),
    blockWithX "tag" [] (.string "b")]

end hclspec

/-! # Theorems -/

namespace hclspec

/-- C1, as stated, fails: `Reset` leaves behind a `Spec` on which none of the
nine accessors returns a non-nil payload, so it is not the case that exactly one
does. -/
theorem C1_counterexample_reset_leaves_no_variant :
    populated (some (Spec.Reset
      (Spec.mk (some (.Spec_Literal (some (.mk (some { Value := "x" })))))))) = 0 ∧
    ¬ populated (some (Spec.Reset
      (Spec.mk (some (.Spec_Literal (some (.mk (some { Value := "x" })))))))) = 1 := by
  constructor
  · rfl
  · decide

/-- C1, amended: on every `Spec` pointer `m` at most one of the nine accessors
returns a non-nil payload; exactly one does precisely when `m.GetBlock()` is a
wrapper holding a non-nil payload; none does after `Reset`; and exactly one does
after `_Spec_OneofUnmarshaler` has handled a tag `1..9` with wire type
`WireBytes`. -/
theorem C1_at_most_one_variant_populated (L : ProtoLib) (m : Option Spec) (m0 : Spec)
    (b : Buffer) :
    populated m ≤ 1 ∧
    (populated m = 1 ↔ ∃ w, Spec.GetBlock m = some w ∧ w.hasPayload = true) ∧
    populated (some (Spec.Reset m0)) = 0 ∧
    (∀ n : Fin 9,
      populated (some (_Spec_OneofUnmarshaler L m0 ((n.val : Int) + 1) WireBytes b).m) = 1) := by
  refine ⟨?_, ?_, rfl, ?_⟩
  · rcases m with _ | ⟨_ | w⟩
    · decide
    · decide
    · cases w <;> rename_i x <;> rcases x with _ | ⟨_ | _⟩ <;>
        simp [populated, returnsPayload, Spec.GetBlock, Spec.Block, Spec.GetObject, Spec.GetArray,
          Spec.GetAttr, Spec.GetBlockValue, Spec.GetBlockList, Spec.GetBlockSet, Spec.GetBlockMap,
          Spec.GetDefault, Spec.GetLiteral, isSpec_Block.hasPayload]
  · rcases m with _ | ⟨_ | w⟩
    · simp [populated, returnsPayload, Spec.GetBlock, Spec.Block, Spec.GetObject, Spec.GetArray,
          Spec.GetAttr, Spec.GetBlockValue, Spec.GetBlockList, Spec.GetBlockSet, Spec.GetBlockMap,
          Spec.GetDefault, Spec.GetLiteral, isSpec_Block.hasPayload]
    · simp [populated, returnsPayload, Spec.GetBlock, Spec.Block, Spec.GetObject, Spec.GetArray,
          Spec.GetAttr, Spec.GetBlockValue, Spec.GetBlockList, Spec.GetBlockSet, Spec.GetBlockMap,
          Spec.GetDefault, Spec.GetLiteral, isSpec_Block.hasPayload]
    · cases w <;> rename_i x <;> rcases x with _ | ⟨_ | _⟩ <;>
        simp [populated, returnsPayload, Spec.GetBlock, Spec.Block, Spec.GetObject, Spec.GetArray,
          Spec.GetAttr, Spec.GetBlockValue, Spec.GetBlockList, Spec.GetBlockSet, Spec.GetBlockMap,
          Spec.GetDefault, Spec.GetLiteral, isSpec_Block.hasPayload]
  · intro n
    fin_cases n <;> rfl

/-- C2, as stated, fails: when `m.Block` holds the nil pointer of the wrapper
type, `(*Spec_Literal)(nil)`, the type assertion in `GetLiteral` succeeds and
reading `x.Literal` dereferences nil, so the accessor panics instead of
returning nil. -/
theorem C2_counterexample_nil_wrapper_pointer_panics :
    Spec.GetLiteral (some (Spec.mk (some (.Spec_Literal none)))) = .error Panic.nilDereference ∧
    Spec.GetLiteral (some (Spec.mk (some (.Spec_Literal none)))) ≠ .ok none := by
  constructor
  · rfl
  · intro h
    cases h

/-- C2, amended: for each of the nine variants the accessor returns the payload
wrapped in `m.Block` when `m` is non-nil and `m.Block` holds a non-nil pointer
to that variant's wrapper; it panics when `m.Block` holds the nil pointer of
that variant's wrapper type; and it returns nil in every other case (nil
receiver, nil `Block`, or `Block` holding a pointer, nil or not, to one of the
other eight wrappers). -/
theorem C2_accessor_contract_with_nil_wrapper_pointer (m : Option Spec) :
    AccessorContract Spec.GetObject .Spec_Object Spec_Object.mk m ∧
    AccessorContract Spec.GetArray .Spec_Array Spec_Array.mk m ∧
    AccessorContract Spec.GetAttr .Spec_Attr Spec_Attr.mk m ∧
    AccessorContract Spec.GetBlockValue .Spec_BlockValue Spec_BlockValue.mk m ∧
    AccessorContract Spec.GetBlockList .Spec_BlockList Spec_BlockList.mk m ∧
    AccessorContract Spec.GetBlockSet .Spec_BlockSet Spec_BlockSet.mk m ∧
    AccessorContract Spec.GetBlockMap .Spec_BlockMap Spec_BlockMap.mk m ∧
    AccessorContract Spec.GetDefault .Spec_Default Spec_Default.mk m ∧
    AccessorContract Spec.GetLiteral .Spec_Literal Spec_Literal.mk m := by
  refine ⟨⟨?_, ?_, ?_⟩, ⟨?_, ?_, ?_⟩, ⟨?_, ?_, ?_⟩, ⟨?_, ?_, ?_⟩, ⟨?_, ?_, ?_⟩, ⟨?_, ?_, ?_⟩,
    ⟨?_, ?_, ?_⟩, ⟨?_, ?_, ?_⟩, ⟨?_, ?_, ?_⟩⟩
  all_goals first
    | (intro payload h; subst h; rfl)
    | (intro h; subst h; rfl)
    | (intro h
       rcases m with _ | ⟨_ | w⟩
       · rfl
       · rfl
       · cases w <;> first | rfl | exact absurd rfl (h _))

/-- C2 at concrete receivers: a `Spec` holding a `Literal` gives the literal
from `GetLiteral` and nil from `GetObject`; a `Spec` holding the nil
`*Spec_Literal` makes `GetLiteral` panic and gives nil from `GetObject`. -/
theorem C2_accessor_witness :
    Spec.GetLiteral (some (Spec.mk (some (.Spec_Literal (some (.mk (some { Value := "x" })))))))
      = .ok (some { Value := "x" }) ∧
    Spec.GetObject (some (Spec.mk (some (.Spec_Literal (some (.mk (some { Value := "x" })))))))
      = .ok none ∧
    Spec.GetLiteral (some (Spec.mk (some (.Spec_Literal none)))) = .error Panic.nilDereference ∧
    Spec.GetObject (some (Spec.mk (some (.Spec_Literal none)))) = .ok none :=
  ⟨(C2_accessor_contract_with_nil_wrapper_pointer _).2.2.2.2.2.2.2.2.1 _ rfl,
   (C2_accessor_contract_with_nil_wrapper_pointer _).1.2.2 (by intro x h; cases h),
   (C2_accessor_contract_with_nil_wrapper_pointer _).2.2.2.2.2.2.2.2.2.1 rfl,
   (C2_accessor_contract_with_nil_wrapper_pointer _).1.2.2 (by intro x h; cases h)⟩

/-- C3: for each of the nine variants, with field numbers 1 to 9, the marshaler
writes the key `n<<3 | WireBytes` before the payload, the unmarshaler given tag
`n` and `WireBytes` assigns the wrapper of the same variant, and, whenever the
library reads back the key and the payload it wrote, unmarshalling what was
marshalled gives back the same variant with an equal payload. -/
theorem C3_oneof_marshal_unmarshal_round_trip (L : ProtoLib) :
    VariantWire L L.Object (Object.mk [])
      (fun x => .Spec_Object (some (.mk x))) 1 ∧
    VariantWire L L.Array (Array.mk [])
      (fun x => .Spec_Array (some (.mk x))) 2 ∧
    VariantWire L L.Attr { Name := "", Type_ := "", Required := false }
      (fun x => .Spec_Attr (some (.mk x))) 3 ∧
    VariantWire L L.Block (Block.mk "" false none)
      (fun x => .Spec_BlockValue (some (.mk x))) 4 ∧
    VariantWire L L.BlockList (BlockList.mk "" 0 0 none)
      (fun x => .Spec_BlockList (some (.mk x))) 5 ∧
    VariantWire L L.BlockSet (BlockSet.mk "" 0 0 none)
      (fun x => .Spec_BlockSet (some (.mk x))) 6 ∧
    VariantWire L L.BlockMap (BlockMap.mk "" [] none)
      (fun x => .Spec_BlockMap (some (.mk x))) 7 ∧
    VariantWire L L.Default (Default.mk none none)
      (fun x => .Spec_Default (some (.mk x))) 8 ∧
    VariantWire L L.Literal { Value := "" }
      (fun x => .Spec_Literal (some (.mk x))) 9 := by
  refine ⟨?_, ?_, ?_, ?_, ?_, ?_, ?_, ?_, ?_⟩
  all_goals
    refine ⟨fun x b => rfl, fun m0 r => rfl, ?_⟩
    intro p m0 b1 r r' henc hkey hdec
    refine ⟨congrArg Except.ok henc, _, hkey, ?_⟩
    simp [_Spec_OneofUnmarshaler, unmarshalArm, WireBytes, hdec]
    decide

/-- C3 on concrete input: with `sampleLib`, the literal `"hi"` is marshalled to
the key `9<<3 | 2 = 74` followed by the payload, and reading that field into an
empty `Spec` gives back the same `Literal`. -/
theorem C3_round_trip_witness :
    _Spec_OneofMarshaler sampleLib
        (Spec.mk (some (.Spec_Literal (some (.mk (some { Value := "hi" })))))) []
      = .ok ([74, 2, 104, 105], none) ∧
    ∃ key, sampleLib.DecodeVarint [74, 2, 104, 105] = some (key, [2, 104, 105]) ∧
      _Spec_OneofUnmarshaler sampleLib (Spec.mk none) ((key >>> 3 : Nat) : Int)
          ((key &&& 7 : Nat) : Int) [2, 104, 105]
        = { m := Spec.mk (some (.Spec_Literal (some (.mk (some { Value := "hi" }))))), b := [],
            handled := true, err := none } :=
  (C3_oneof_marshal_unmarshal_round_trip sampleLib).2.2.2.2.2.2.2.2.2.2
    { Value := "hi" } (Spec.mk none) [74, 2, 104, 105] [2, 104, 105] [] rfl rfl rfl

/-- C4, as stated, fails: a `BlockList` and a `BlockSet` with both bounds set
and `MaxItems < MinItems` are built by plain construction, and the getters and
the accessors of `Spec` hand them back unchanged. -/
theorem C4_counterexample_inverted_bounds_are_built :
    (BlockList.GetMinItems (some invertedBlockList) ≠ 0 ∧
      BlockList.GetMaxItems (some invertedBlockList) ≠ 0 ∧
      BlockList.GetMaxItems (some invertedBlockList)
        < BlockList.GetMinItems (some invertedBlockList) ∧
      Spec.GetBlockList
          (some (Spec.mk (some (.Spec_BlockList (some (.mk (some invertedBlockList)))))))
        = .ok (some invertedBlockList)) ∧
    (BlockSet.GetMinItems (some invertedBlockSet) ≠ 0 ∧
      BlockSet.GetMaxItems (some invertedBlockSet) ≠ 0 ∧
      BlockSet.GetMaxItems (some invertedBlockSet)
        < BlockSet.GetMinItems (some invertedBlockSet) ∧
      Spec.GetBlockSet
          (some (Spec.mk (some (.Spec_BlockSet (some (.mk (some invertedBlockSet)))))))
        = .ok (some invertedBlockSet)) := by
  refine ⟨⟨?_, ?_, ?_, rfl⟩, ⟨?_, ?_, ?_, rfl⟩⟩ <;> decide

/-- C4, amended: `MinItems` and `MaxItems` of a `BlockList` or `BlockSet` are two
independent fields.  Every pair of values can be built, the getters and the
accessors of `Spec` return it unchanged, and the oneof unmarshaler assigns
whatever message the library decoded, returning the decoder's error, without
looking at the bounds. -/
theorem C4_bounds_are_stored_unchecked (L : ProtoLib) (name : String)
    (minItems maxItems : Nat) (nested : Option Spec) (m0 : Spec) (r : Buffer) :
    (BlockList.GetMinItems (some (BlockList.mk name minItems maxItems nested)) = minItems ∧
      BlockList.GetMaxItems (some (BlockList.mk name minItems maxItems nested)) = maxItems ∧
      Spec.GetBlockList
          (some (Spec.mk (some (.Spec_BlockList
            (some (.mk (some (BlockList.mk name minItems maxItems nested))))))))
        = .ok (some (BlockList.mk name minItems maxItems nested))) ∧
    (BlockSet.GetMinItems (some (BlockSet.mk name minItems maxItems nested)) = minItems ∧
      BlockSet.GetMaxItems (some (BlockSet.mk name minItems maxItems nested)) = maxItems ∧
      Spec.GetBlockSet
          (some (Spec.mk (some (.Spec_BlockSet
            (some (.mk (some (BlockSet.mk name minItems maxItems nested))))))))
        = .ok (some (BlockSet.mk name minItems maxItems nested))) ∧
    (Spec.GetBlockList (some (_Spec_OneofUnmarshaler L m0 5 WireBytes r).m)
        = .ok (some (L.BlockList.DecodeMessage (BlockList.mk "" 0 0 none) r).1) ∧
      (_Spec_OneofUnmarshaler L m0 5 WireBytes r).err
        = (L.BlockList.DecodeMessage (BlockList.mk "" 0 0 none) r).2.2) ∧
    (Spec.GetBlockSet (some (_Spec_OneofUnmarshaler L m0 6 WireBytes r).m)
        = .ok (some (L.BlockSet.DecodeMessage (BlockSet.mk "" 0 0 none) r).1) ∧
      (_Spec_OneofUnmarshaler L m0 6 WireBytes r).err
        = (L.BlockSet.DecodeMessage (BlockSet.mk "" 0 0 none) r).2.2) :=
  ⟨⟨rfl, rfl, rfl⟩, ⟨rfl, rfl, rfl⟩, ⟨rfl, rfl⟩, ⟨rfl, rfl⟩⟩

end hclspec

namespace structs

/-- C5: on a nil receiver `ConsulSidecarService.Copy` panics with a nil
dereference instead of returning nil, while the `Copy` methods of the other
three stanzas return nil on a nil receiver. -/
theorem C5_sidecar_copy_nil_receiver_panics (V : Type) :
    ConsulSidecarService.Copy (none : Option (ConsulSidecarService V))
      = .error Panic.nilDereference ∧
    ConsulProxy.Copy (none : Option (ConsulProxy V)) = none ∧
    ConsulUpstream.Copy none = none ∧
    ConsulConnect.Copy (none : Option (ConsulConnect V)) = .ok none :=
  ⟨rfl, rfl, rfl, rfl⟩

/-- C6: on a native stanza without a sidecar service `ConsulConnect.Copy`
panics, through `ConsulSidecarService.Copy` on the nil `SidecarService`. -/
theorem C6_connect_copy_native_without_sidecar_panics (V : Type) :
    ConsulConnect.Copy (some ({ Native := true, SidecarService := none } : ConsulConnect V))
      = .error Panic.nilDereference :=
  rfl

/-- C7: on a non-nil stanza `Validate` returns the nil error exactly when one
and only one of `Native` and a non-nil `SidecarService` holds; it returns the
"not both" error when both hold and the other error when neither holds. -/
theorem C7_validate_exactly_one_of_native_or_sidecar {V : Type} (c : ConsulConnect V) :
    (ConsulConnect.Validate (some c) = .ok none ↔
      Xor' (c.Native = true) (c.SidecarService ≠ none)) ∧
    (c.Native = true ∧ c.SidecarService ≠ none →
      ConsulConnect.Validate (some c) = .ok (some errNotBoth)) ∧
    (c.Native = false ∧ c.SidecarService = none →
      ConsulConnect.Validate (some c) = .ok (some errNeither)) ∧
    errNotBoth ≠ errNeither := by
  obtain ⟨native, sidecar⟩ := c
  cases native <;> cases sidecar <;>
    simp [ConsulConnect.Validate, Xor', errNotBoth, errNeither]

/-- C7 on concrete input: a native stanza that also has a sidecar service gets
the "not both" error. -/
theorem C7_validate_witness :
    ConsulConnect.Validate
        (some ({ Native := true, SidecarService := some { Port := "8080", Proxy := none } } :
          ConsulConnect String))
      = .ok (some errNotBoth) :=
  (C7_validate_exactly_one_of_native_or_sidecar _).2.1 ⟨rfl, by simp⟩

/-- C8: `ConsulProxy.Equals` returns true on a proxy without `Config` and a
proxy whose `Config` binds `protocol`, although the two maps differ: the maps
are compared only when both are non-empty. -/
theorem C8_equals_ignores_config_when_one_is_empty :
    ConsulProxy.Equals
        (some ({ Upstreams := [], Config := none } : ConsulProxy String))
        (some { Upstreams := [], Config := some [("protocol", "http")] }) = true ∧
    ¬ GoMap.sameEntries (none : GoMap String) (some [("protocol", "http")]) := by
  refine ⟨by decide, ?_⟩
  intro h
  have h1 := h "protocol"
  simp [GoMap.entries, List.lookup] at h1

/-- C9: `ConsulProxy.Equals` returns true on the upstreams `[db, db]` and
`[db, cache]`, which are not reorderings of each other: `cache` occurs in the
second list only.  With the arguments swapped it returns false. -/
theorem C9_equals_accepts_upstreams_that_are_no_reordering :
    ConsulProxy.Equals
        (some ({ Upstreams := [some upstreamDb, some upstreamDb], Config := none } :
          ConsulProxy String))
        (some { Upstreams := [some upstreamDb, some upstreamCache], Config := none }) = true ∧
    ¬ List.Perm [some upstreamDb, some upstreamDb] [some upstreamDb, some upstreamCache] ∧
    List.count (some upstreamCache) [some upstreamDb, some upstreamDb]
      ≠ List.count (some upstreamCache) [some upstreamDb, some upstreamCache] ∧
    ConsulProxy.Equals
        (some ({ Upstreams := [some upstreamDb, some upstreamCache], Config := none } :
          ConsulProxy String))
        (some { Upstreams := [some upstreamDb, some upstreamDb], Config := none }) = false := by
  refine ⟨by decide, ?_, by decide, by decide⟩
  intro h
  exact absurd (h.count_eq (some upstreamCache)) (by decide)

/-- The inner loop searches `os` for an upstream equal to `up`. -/
theorem matchInner_eq_any (up : Option ConsulUpstream) (os : List (Option ConsulUpstream)) :
    ConsulProxy.matchInner up os = os.any (fun innerUp => ConsulUpstream.Equals up innerUp) := by
  induction os with
  | nil => rfl
  | cons innerUp rest ih =>
    simp only [ConsulProxy.matchInner, List.any_cons, ih]
    cases ConsulUpstream.Equals up innerUp <;> simp

/-- The outer loop checks that every upstream of `ps` has a match in `os`. -/
theorem matchOuter_eq_all (ps os : List (Option ConsulUpstream)) :
    ConsulProxy.matchOuter ps os = ps.all (fun up => ConsulProxy.matchInner up os) := by
  induction ps with
  | nil => rfl
  | cons up rest ih =>
    simp only [ConsulProxy.matchOuter, List.all_cons, ih]
    cases ConsulProxy.matchInner up os <;> simp

/-- The inner loop does not depend on the order of `os`. -/
theorem matchInner_perm (up : Option ConsulUpstream) {os os' : List (Option ConsulUpstream)}
    (h : os'.Perm os) : ConsulProxy.matchInner up os' = ConsulProxy.matchInner up os := by
  rw [matchInner_eq_any, matchInner_eq_any, Bool.eq_iff_iff]
  simp only [List.any_eq_true]
  constructor
  · rintro ⟨x, hx, hEq⟩
    exact ⟨x, h.mem_iff.mp hx, hEq⟩
  · rintro ⟨x, hx, hEq⟩
    exact ⟨x, h.mem_iff.mpr hx, hEq⟩

/-- The outer loop depends on the order of neither list. -/
theorem matchOuter_perm {ps ps' os os' : List (Option ConsulUpstream)}
    (hp : ps'.Perm ps) (ho : os'.Perm os) :
    ConsulProxy.matchOuter ps' os' = ConsulProxy.matchOuter ps os := by
  rw [matchOuter_eq_all, matchOuter_eq_all, Bool.eq_iff_iff]
  simp only [List.all_eq_true]
  constructor
  · intro hall up hup
    rw [← matchInner_perm up ho]
    exact hall up (hp.mem_iff.mpr hup)
  · intro hall up hup
    rw [matchInner_perm up ho]
    exact hall up (hp.mem_iff.mp hup)

/-- C10: reordering the upstreams of either proxy does not change the result of
`ConsulProxy.Equals`. -/
theorem C10_equals_ignores_upstream_order {V : Type} [BEq V] (p o : ConsulProxy V)
    (ps os : List (Option ConsulUpstream)) (hp : ps.Perm p.Upstreams)
    (ho : os.Perm o.Upstreams) :
    ConsulProxy.Equals (some { p with Upstreams := ps }) (some { o with Upstreams := os })
      = ConsulProxy.Equals (some p) (some o) := by
  simp only [ConsulProxy.Equals, hp.length_eq, ho.length_eq, matchOuter_perm hp ho]

/-- C10 on concrete input: swapping the two upstreams of the left proxy and of
the right proxy leaves the result of `Equals` unchanged. -/
theorem C10_equals_order_witness :
    [some upstreamCache, some upstreamDb].Perm [some upstreamDb, some upstreamCache] ∧
    [none, some upstreamDb].Perm [some upstreamDb, none] ∧
    ConsulProxy.Equals
        (some ({ Upstreams := [some upstreamCache, some upstreamDb], Config := none } :
          ConsulProxy String))
        (some { Upstreams := [none, some upstreamDb], Config := none })
      = ConsulProxy.Equals
        (some ({ Upstreams := [some upstreamDb, some upstreamCache], Config := none } :
          ConsulProxy String))
        (some { Upstreams := [some upstreamDb, none], Config := none }) :=
  ⟨List.Perm.swap _ _ _, List.Perm.swap _ _ _,
    C10_equals_ignores_upstream_order
      { Upstreams := [some upstreamDb, some upstreamCache], Config := none }
      { Upstreams := [some upstreamDb, none], Config := none }
      [some upstreamCache, some upstreamDb] [none, some upstreamDb]
      (List.Perm.swap _ _ _) (List.Perm.swap _ _ _)⟩

/-! ## `Copy` and `Equals` away from the nil sidecar service -/

/-- The copy of an upstream pointer has the contents of the original. -/
theorem upstream_copy_eq (u : Option ConsulUpstream) : ConsulUpstream.Copy u = u := by
  cases u <;> rfl

/-- An upstream equals itself. -/
theorem upstream_equals_self (u : Option ConsulUpstream) : ConsulUpstream.Equals u u = true := by
  cases u <;> simp [ConsulUpstream.Equals]

/-- Every upstream of a list has a match in the same list. -/
theorem matchOuter_self (l : List (Option ConsulUpstream)) : ConsulProxy.matchOuter l l = true := by
  rw [matchOuter_eq_all, List.all_eq_true]
  intro up hup
  rw [matchInner_eq_any, List.any_eq_true]
  exact ⟨up, hup, upstream_equals_self up⟩

/-- Assigning the entries of a map one by one to a map with other keys appends
them. -/
theorem assign_fold {V : Type} (kvs acc : List (String × V))
    (h : ((acc ++ kvs).map Prod.fst).Nodup) :
    kvs.foldl (fun newConfig kv => GoMap.assign newConfig kv.1 kv.2) acc = acc ++ kvs := by
  induction kvs generalizing acc with
  | nil => simp
  | cons kv rest ih =>
    have hnot : acc.any (fun e => e.1 == kv.1) = false := by
      rw [Bool.eq_false_iff]
      intro hany
      rw [List.any_eq_true] at hany
      obtain ⟨e, he, hk⟩ := hany
      have hk' : e.1 = kv.1 := by simpa using hk
      simp only [List.map_append, List.map_cons] at h
      have := (List.nodup_append.mp h).2.2
      exact this (List.mem_map_of_mem Prod.fst he) (by rw [hk']; exact List.mem_cons_self _ _)
    have hstep : GoMap.assign acc kv.1 kv.2 = acc ++ [kv] := by
      simp [GoMap.assign, hnot]
    rw [List.foldl_cons, hstep, ih (acc ++ [kv]) (by simpa using h)]
    simp

/-- In a map with one entry per key, the key of an entry is bound to its value. -/
theorem lookup_of_mem_nodup {V : Type} (kvs : List (String × V)) (h : (kvs.map Prod.fst).Nodup)
    (kv : String × V) (hm : kv ∈ kvs) : kvs.lookup kv.1 = some kv.2 := by
  induction kvs with
  | nil => cases hm
  | cons e rest ih =>
    obtain ⟨k, v⟩ := e
    simp only [List.map_cons, List.nodup_cons] at h
    rcases List.mem_cons.mp hm with heq | hrest
    · subst heq
      simp [List.lookup]
    · have hne : kv.1 ≠ k := by
        intro hk
        exact h.1 (hk ▸ List.mem_map_of_mem Prod.fst hrest)
      have : (kv.1 == k) = false := by simpa using hne
      simp only [List.lookup, this]
      exact ih h.2 hrest

/-- A well-formed map whose values are deeply equal to themselves is deeply
equal to itself. -/
theorem deepEqual_self {V : Type} [BEq V] (m : GoMap V) (h : m.WF) (hrefl : m.SelfEqual) :
    DeepEqual m m = true := by
  cases m with
  | none => rfl
  | some kvs =>
    simp only [DeepEqual, Bool.and_eq_true, beq_self_eq_true, true_and, List.all_eq_true]
    intro kv hm
    rw [lookup_of_mem_nodup kvs h kv hm]
    exact hrefl kv hm

/-- A proxy equals its copy, provided its `Config` holds no value unequal to
itself. -/
theorem proxy_copy_equals {V : Type} [BEq V] (p : Option (ConsulProxy V))
    (h : ∀ q, p = some q → q.Config.WF ∧ q.Config.SelfEqual) :
    ConsulProxy.Equals p (ConsulProxy.Copy p) = true := by
  cases p with
  | none => rfl
  | some q =>
    have hwf := (h q rfl).1
    have hself := (h q rfl).2
    obtain ⟨ups, cfg⟩ := q
    have hups : (if ups.length > 0 then ups.map ConsulUpstream.Copy else []) = ups := by
      have : ups.map ConsulUpstream.Copy = ups := by
        conv_rhs => rw [← List.map_id ups]
        exact List.map_congr_left (fun u _ => upstream_copy_eq u)
      cases ups with
      | nil => rfl
      | cons a l => simp only [List.length_cons, gt_iff_lt, Nat.zero_lt_succ, if_true, this]
    simp only [ConsulProxy.Copy, ConsulProxy.Equals, hups, matchOuter_self]
    cases cfg with
    | none => simp [GoMap.len]
    | some kvs =>
      cases kvs with
      | nil => simp [GoMap.len]
      | cons e rest =>
        have hfold := assign_fold (e :: rest) [] (by simpa [GoMap.WF, GoMap.entries] using hwf)
        simp only [List.nil_append] at hfold
        have hd := deepEqual_self (some (e :: rest)) hwf hself
        simp [GoMap.len, GoMap.entries, hfold, hd]

/-- Where the sidecar service is present and the proxy `Config` holds no value
unequal to itself, `ConsulConnect.Copy` returns a stanza with the same `Native`
that `Equals` the original. -/
theorem connect_copy_equals_of_sidecar {V : Type} [BEq V] (c : ConsulConnect V)
    (s : ConsulSidecarService V) (hs : c.SidecarService = some s)
    (hwf : ∀ q, s.Proxy = some q → q.Config.WF ∧ q.Config.SelfEqual) :
    ∃ o, ConsulConnect.Copy (some c) = .ok (some o) ∧ o.Native = c.Native ∧
      ConsulConnect.Equals (some c) (some o) = true := by
  obtain ⟨native, sidecar⟩ := c
  simp only at hs
  subst hs
  refine ⟨_, rfl, rfl, ?_⟩
  simp [ConsulConnect.Equals, ConsulSidecarService.Equals, proxy_copy_equals s.Proxy hwf]

end structs

namespace hclspec

/-! ## The decode engine -/

/-- At the root there is no parent Object: the name selector is the explicit
name. -/
theorem selectName_root (name : String) : selectName "" name = name := by
  unfold selectName
  split <;> simp_all

/-- Covering of mapping entries, spelled out. -/
theorem Value.entriesWithin_iff (as bs : List (String × Value)) :
    Value.entriesWithin as bs = true ↔
      ∀ e ∈ as, ∃ e' ∈ bs, e.1 = e'.1 ∧ Value.equal e.2 e'.2 = true := by
  induction as with
  | nil => simp [Value.entriesWithin]
  | cons e rest ih =>
    obtain ⟨k, v⟩ := e
    simp only [Value.entriesWithin, Bool.and_eq_true, List.any_eq_true, ih, List.mem_cons,
      forall_eq_or_imp, beq_iff_eq]

/-- Binding of a key to an equal value, spelled out. -/
theorem Value.bindsEqual_iff (as : List (String × Value)) (k : String) (w : Value) :
    Value.bindsEqual as k w = true ↔ ∃ e ∈ as, e.1 = k ∧ Value.equal e.2 w = true := by
  induction as with
  | nil => simp [Value.bindsEqual]
  | cons e rest ih =>
    obtain ⟨k', v⟩ := e
    simp only [Value.bindsEqual, Bool.or_eq_true, Bool.and_eq_true, ih, List.mem_cons,
      exists_eq_or_imp, beq_iff_eq]

/-- Covering of set elements, spelled out. -/
theorem Value.elementsWithin_iff (as bs : List Value) :
    Value.elementsWithin as bs = true ↔ ∀ v ∈ as, ∃ w ∈ bs, Value.equal v w = true := by
  induction as with
  | nil => simp [Value.elementsWithin]
  | cons v rest ih =>
    simp only [Value.elementsWithin, Bool.and_eq_true, List.any_eq_true, ih, List.mem_cons,
      forall_eq_or_imp]

/-- Membership up to equality, spelled out. -/
theorem Value.holdsEqual_iff (as : List Value) (w : Value) :
    Value.holdsEqual as w = true ↔ ∃ v ∈ as, Value.equal v w = true := by
  induction as with
  | nil => simp [Value.holdsEqual]
  | cons v rest ih =>
    simp only [Value.holdsEqual, Bool.or_eq_true, ih, List.mem_cons, exists_eq_or_imp]

/-- Two mappings are equal iff each binds every key of the other to an equal
value. -/
theorem Value.equal_mapping_iff (as bs : List (String × Value)) :
    Value.equal (.mapping as) (.mapping bs) = true ↔
      (∀ e ∈ as, ∃ e' ∈ bs, e.1 = e'.1 ∧ Value.equal e.2 e'.2 = true) ∧
      (∀ e' ∈ bs, ∃ e ∈ as, e.1 = e'.1 ∧ Value.equal e.2 e'.2 = true) := by
  simp only [Value.equal, Bool.and_eq_true, Value.entriesWithin_iff, List.all_eq_true,
    Value.bindsEqual_iff]

/-- Two sets are equal iff each holds an equal of every element of the other. -/
theorem Value.equal_set_iff (as bs : List Value) :
    Value.equal (.set as) (.set bs) = true ↔
      (∀ v ∈ as, ∃ w ∈ bs, Value.equal v w = true) ∧
      (∀ w ∈ bs, ∃ v ∈ as, Value.equal v w = true) := by
  simp only [Value.equal, Bool.and_eq_true, Value.elementsWithin_iff, List.all_eq_true,
    Value.holdsEqual_iff]

/-- Two sequences are equal iff they are pairwise equal in order. -/
theorem Value.equal_sequence_iff (as bs : List Value) :
    Value.equal (.sequence as) (.sequence bs) = true ↔
      List.Forall₂ (fun a b => Value.equal a b = true) as bs := by
  simp only [Value.equal]
  induction as generalizing bs with
  | nil => cases bs <;> simp [Value.equalSeq]
  | cons a rest ih =>
    cases bs with
    | nil => simp [Value.equalSeq]
    | cons b bs => simp [Value.equalSeq, ih]

mutual
/-- Induction on a value, with the property known for the values it holds. -/
theorem Value.induction {P : Value → Prop} (hnull : P .null) (hbool : ∀ b, P (.bool b))
    (hnumber : ∀ n, P (.number n)) (hstring : ∀ s, P (.string s))
    (hsequence : ∀ vs, (∀ v ∈ vs, P v) → P (.sequence vs))
    (hmapping : ∀ kvs, (∀ e ∈ kvs, P e.2) → P (.mapping kvs))
    (hset : ∀ vs, (∀ v ∈ vs, P v) → P (.set vs)) : ∀ v : Value, P v
  | .null => hnull
  | .bool b => hbool b
  | .number n => hnumber n
  | .string s => hstring s
  | .sequence vs =>
    hsequence vs (Value.induction_list hnull hbool hnumber hstring hsequence hmapping hset vs)
  | .mapping kvs =>
    hmapping kvs (Value.induction_entries hnull hbool hnumber hstring hsequence hmapping hset kvs)
  | .set vs =>
    hset vs (Value.induction_list hnull hbool hnumber hstring hsequence hmapping hset vs)
/-- The property holds for the elements of a list of values. -/
theorem Value.induction_list {P : Value → Prop} (hnull : P .null) (hbool : ∀ b, P (.bool b))
    (hnumber : ∀ n, P (.number n)) (hstring : ∀ s, P (.string s))
    (hsequence : ∀ vs, (∀ v ∈ vs, P v) → P (.sequence vs))
    (hmapping : ∀ kvs, (∀ e ∈ kvs, P e.2) → P (.mapping kvs))
    (hset : ∀ vs, (∀ v ∈ vs, P v) → P (.set vs)) : ∀ vs : List Value, ∀ v ∈ vs, P v
  | [], _, h => by cases h
  | a :: rest, v, h => by
    rcases List.mem_cons.mp h with hEq | hmem
    · rw [hEq]
      exact Value.induction hnull hbool hnumber hstring hsequence hmapping hset a
    · exact Value.induction_list hnull hbool hnumber hstring hsequence hmapping hset rest v hmem
/-- The property holds for the values of a list of entries. -/
theorem Value.induction_entries {P : Value → Prop} (hnull : P .null) (hbool : ∀ b, P (.bool b))
    (hnumber : ∀ n, P (.number n)) (hstring : ∀ s, P (.string s))
    (hsequence : ∀ vs, (∀ v ∈ vs, P v) → P (.sequence vs))
    (hmapping : ∀ kvs, (∀ e ∈ kvs, P e.2) → P (.mapping kvs))
    (hset : ∀ vs, (∀ v ∈ vs, P v) → P (.set vs)) :
    ∀ kvs : List (String × Value), ∀ e ∈ kvs, P e.2
  | [], _, h => by cases h
  | (k, a) :: rest, e, h => by
    rcases List.mem_cons.mp h with hEq | hmem
    · rw [hEq]
      exact Value.induction hnull hbool hnumber hstring hsequence hmapping hset a
    · exact Value.induction_entries hnull hbool hnumber hstring hsequence hmapping hset rest e hmem
end

/-- Structural equality is reflexive. -/
theorem Value.equal_refl (v : Value) : Value.equal v v = true := by
  induction v using Value.induction with
  | hnull => rfl
  | hbool b => simp [Value.equal]
  | hnumber n => simp [Value.equal]
  | hstring s => simp [Value.equal]
  | hsequence vs ih =>
    rw [Value.equal_sequence_iff]
    induction vs with
    | nil => exact List.Forall₂.nil
    | cons a rest ihr =>
      exact List.Forall₂.cons (ih a (List.mem_cons_self _ _))
        (ihr (fun v hv => ih v (List.mem_cons_of_mem _ hv)))
  | hmapping kvs ih =>
    rw [Value.equal_mapping_iff]
    exact ⟨fun e he => ⟨e, he, rfl, ih e he⟩, fun e he => ⟨e, he, rfl, ih e he⟩⟩
  | hset vs ih =>
    rw [Value.equal_set_iff]
    exact ⟨fun v hv => ⟨v, hv, ih v hv⟩, fun v hv => ⟨v, hv, ih v hv⟩⟩

/-- Structural equality is symmetric. -/
theorem Value.equal_symm (a b : Value) (h : Value.equal a b = true) :
    Value.equal b a = true := by
  induction a using Value.induction generalizing b with
  | hnull => cases b <;> simp_all [Value.equal]
  | hbool x => cases b <;> simp_all [Value.equal]
  | hnumber x => cases b <;> simp_all [Value.equal]
  | hstring x => cases b <;> simp_all [Value.equal]
  | hsequence as ih =>
    cases b with
    | sequence bs =>
      rw [Value.equal_sequence_iff] at h ⊢
      induction h with
      | nil => exact List.Forall₂.nil
      | cons hab _ ihr =>
        exact List.Forall₂.cons (ih _ (List.mem_cons_self _ _) _ hab)
          (ihr (fun v hv => ih v (List.mem_cons_of_mem _ hv)))
    | _ => simp [Value.equal] at h
  | hmapping as ih =>
    cases b with
    | mapping bs =>
      rw [Value.equal_mapping_iff] at h ⊢
      refine ⟨fun e' he' => ?_, fun e he => ?_⟩
      · obtain ⟨e, he, hk, hv⟩ := h.2 e' he'
        exact ⟨e, he, hk.symm, ih e he _ hv⟩
      · obtain ⟨e', he', hk, hv⟩ := h.1 e he
        exact ⟨e', he', hk.symm, ih e he _ hv⟩
    | _ => simp [Value.equal] at h
  | hset as ih =>
    cases b with
    | set bs =>
      rw [Value.equal_set_iff] at h ⊢
      refine ⟨fun w hw => ?_, fun v hv => ?_⟩
      · obtain ⟨v, hv, hEq⟩ := h.2 w hw
        exact ⟨v, hv, ih v hv _ hEq⟩
      · obtain ⟨w, hw, hEq⟩ := h.1 v hv
        exact ⟨w, hw, ih v hv _ hEq⟩
    | _ => simp [Value.equal] at h

/-- Structural equality is transitive. -/
theorem Value.equal_trans (a b c : Value) (hab : Value.equal a b = true)
    (hbc : Value.equal b c = true) : Value.equal a c = true := by
  induction a using Value.induction generalizing b c with
  | hnull => cases b <;> cases c <;> simp_all [Value.equal]
  | hbool x => cases b <;> cases c <;> simp_all [Value.equal]
  | hnumber x => cases b <;> cases c <;> simp_all [Value.equal]
  | hstring x => cases b <;> cases c <;> simp_all [Value.equal]
  | hsequence as ih =>
    cases b with
    | sequence bs =>
      cases c with
      | sequence cs =>
        rw [Value.equal_sequence_iff] at hab hbc ⊢
        induction hab generalizing cs with
        | nil => cases hbc; exact List.Forall₂.nil
        | cons h1 _ ihr =>
          cases hbc with
          | cons h2 hrest =>
            exact List.Forall₂.cons (ih _ (List.mem_cons_self _ _) _ _ h1 h2)
              (ihr (fun v hv => ih v (List.mem_cons_of_mem _ hv)) _ hrest)
      | _ => simp [Value.equal] at hbc
    | _ => simp [Value.equal] at hab
  | hmapping as ih =>
    cases b with
    | mapping bs =>
      cases c with
      | mapping cs =>
        rw [Value.equal_mapping_iff] at hab hbc ⊢
        refine ⟨fun e he => ?_, fun e'' he'' => ?_⟩
        · obtain ⟨e', he', hk, hv⟩ := hab.1 e he
          obtain ⟨e'', he'', hk', hv'⟩ := hbc.1 e' he'
          exact ⟨e'', he'', hk.trans hk', ih e he _ _ hv hv'⟩
        · obtain ⟨e', he', hk', hv'⟩ := hbc.2 e'' he''
          obtain ⟨e, he, hk, hv⟩ := hab.2 e' he'
          exact ⟨e, he, hk.trans hk', ih e he _ _ hv hv'⟩
      | _ => simp [Value.equal] at hbc
    | _ => simp [Value.equal] at hab
  | hset as ih =>
    cases b with
    | set bs =>
      cases c with
      | set cs =>
        rw [Value.equal_set_iff] at hab hbc ⊢
        refine ⟨fun v hv => ?_, fun u hu => ?_⟩
        · obtain ⟨w, hw, h1⟩ := hab.1 v hv
          obtain ⟨u, hu, h2⟩ := hbc.1 w hw
          exact ⟨u, hu, ih v hv _ _ h1 h2⟩
        · obtain ⟨w, hw, h2⟩ := hbc.2 u hu
          obtain ⟨v, hv, h1⟩ := hab.2 w hw
          exact ⟨v, hv, ih v hv _ _ h1 h2⟩
      | _ => simp [Value.equal] at hbc
    | _ => simp [Value.equal] at hab

/-- De-duplication only keeps values seen so far or decoded. -/
theorem mem_dedupInto (vs seen : List Value) (w : Value) (h : w ∈ dedupInto seen vs) :
    w ∈ seen ∨ w ∈ vs := by
  induction vs generalizing seen with
  | nil => exact Or.inl (by simpa [dedupInto] using h)
  | cons v vs ih =>
    unfold dedupInto at h
    split at h
    · rcases ih seen h with h1 | h1
      · exact Or.inl h1
      · exact Or.inr (List.mem_cons_of_mem _ h1)
    · rcases ih (seen ++ [v]) h with h1 | h1
      · rcases List.mem_append.mp h1 with h2 | h2
        · exact Or.inl h2
        · exact Or.inr (by rw [List.mem_singleton.mp h2]; exact List.mem_cons_self _ _)
      · exact Or.inr (List.mem_cons_of_mem _ h1)

/-- De-duplication keeps every value seen so far. -/
theorem seen_subset_dedupInto (vs seen : List Value) (w : Value) (h : w ∈ seen) :
    w ∈ dedupInto seen vs := by
  induction vs generalizing seen with
  | nil => simpa [dedupInto] using h
  | cons v vs ih =>
    unfold dedupInto
    split
    · exact ih seen h
    · exact ih (seen ++ [v]) (List.mem_append_left _ h)

/-- De-duplication keeps, for every decoded value, a value structurally equal
to it. -/
theorem covered_dedupInto (vs seen : List Value) (v : Value) (h : v ∈ vs) :
    ∃ w ∈ dedupInto seen vs, Value.equal w v = true := by
  induction vs generalizing seen with
  | nil => cases h
  | cons a vs ih =>
    unfold dedupInto
    rcases List.mem_cons.mp h with hEq | hmem
    · subst hEq
      split
      · rename_i hany
        obtain ⟨w, hw, hwv⟩ := List.any_eq_true.mp hany
        exact ⟨w, seen_subset_dedupInto vs seen w hw, hwv⟩
      · exact ⟨v, seen_subset_dedupInto vs (seen ++ [v]) v
          (List.mem_append_right _ (List.mem_singleton_self v)), Value.equal_refl v⟩
    · split
      · exact ih seen hmem
      · exact ih (seen ++ [a]) hmem

/-- De-duplication never keeps two structurally equal values. -/
theorem pairwise_dedupInto (vs seen : List Value)
    (h : seen.Pairwise (fun a b => Value.equal a b = false)) :
    (dedupInto seen vs).Pairwise (fun a b => Value.equal a b = false) := by
  induction vs generalizing seen with
  | nil => simpa [dedupInto] using h
  | cons v vs ih =>
    unfold dedupInto
    split
    · exact ih seen h
    · rename_i hany
      apply ih
      rw [List.pairwise_append]
      refine ⟨h, List.pairwise_singleton _ _, ?_⟩
      intro a ha b hb
      rw [List.mem_singleton] at hb
      subst hb
      cases hab : Value.equal a b with
      | false => rfl
      | true => exact absurd (List.any_eq_true.mpr ⟨a, ha, hab⟩) hany

/-- In a list without two structurally equal values, a value that has an equal
in the list has exactly one. -/
theorem filter_equal_length_of_pairwise (vs : List Value)
    (h : vs.Pairwise (fun a b => Value.equal a b = false)) (v : Value)
    (hv : ∃ w ∈ vs, Value.equal w v = true) :
    (vs.filter (fun w => Value.equal w v)).length = 1 := by
  induction vs with
  | nil =>
    obtain ⟨w, hw, _⟩ := hv
    cases hw
  | cons a rest ih =>
    rw [List.pairwise_cons] at h
    cases hav : Value.equal a v with
    | true =>
      have hnone : rest.filter (fun w => Value.equal w v) = [] := by
        rw [List.filter_eq_nil_iff]
        intro w hw hwv
        have haw : Value.equal a w = true :=
          Value.equal_trans a v w hav (Value.equal_symm w v hwv)
        rw [h.1 w hw] at haw
        cases haw
      simp [List.filter_cons, hav, hnone]
    | false =>
      obtain ⟨w, hw, hwv⟩ := hv
      rcases List.mem_cons.mp hw with hEq | hmem
      · rw [hEq, hav] at hwv
        cases hwv
      · simp [List.filter_cons, hav, ih h.2 ⟨w, hmem, hwv⟩]

/-- A key just bound is bound to the new value. -/
theorem lookup_setKey_self (k : String) (v : Value) (m : List (String × Value)) :
    (Value.setKey k v m).lookup k = some v := by
  induction m with
  | nil => simp [Value.setKey, List.lookup]
  | cons e rest ih =>
    obtain ⟨k', v'⟩ := e
    unfold Value.setKey
    split
    · simp [List.lookup]
    · split
      · simp [List.lookup]
      · rename_i _ hne
        have : (k == k') = false := by simpa using hne
        simp [List.lookup, this, ih]

/-- Binding a key leaves the other keys as they were. -/
theorem lookup_setKey_ne (k j : String) (v : Value) (m : List (String × Value)) (h : j ≠ k) :
    (Value.setKey k v m).lookup j = m.lookup j := by
  have hjk : (j == k) = false := by simpa using h
  induction m with
  | nil => simp [Value.setKey, List.lookup, hjk]
  | cons e rest ih =>
    obtain ⟨k', v'⟩ := e
    unfold Value.setKey
    split
    · simp [List.lookup, hjk]
    · split
      · rename_i _ hEq
        subst hEq
        simp [List.lookup, hjk]
      · by_cases hj : (j == k') = true
        · simp [List.lookup, hj]
        · have hj' : (j == k') = false := by simpa using hj
          simp [List.lookup, hj', ih]

/-- No label path leads anywhere in the empty mapping. -/
theorem lookupPath_empty (p : List String) : lookupPath p [] = none := by
  match p with
  | [] => rfl
  | [_] => rfl
  | _ :: _ :: _ => rfl

/-- Following a label path after inserting at a path of the same length: the
inserted value at the same path, the earlier content at any other path. -/
theorem lookupPath_insertPath (q : List String) (v : Value) :
    ∀ (p : List String) (m : List (String × Value)), p.length = q.length → 1 ≤ q.length →
      lookupPath p (insertPath q v m) = if p = q then some v else lookupPath p m := by
  induction q with
  | nil => intro p m _ h; simp at h
  | cons l ls ih =>
    intro p m hlen _
    cases ls with
    | nil =>
      match p, hlen with
      | [l'], _ =>
        by_cases h : l' = l
        · subst h
          simp [insertPath, lookupPath, lookup_setKey_self]
        · simp [insertPath, lookupPath, lookup_setKey_ne l l' v m h, h]
    | cons l2 ls2 =>
      match p, hlen with
      | l' :: p2 :: ps, hlen' =>
        have hlen2 : (p2 :: ps).length = (l2 :: ls2).length := by simpa using hlen'
        by_cases h : l' = l
        · subst h
          have ih' := ih (p2 :: ps)
            (match m.lookup l' with
             | some (.mapping sub) => sub
             | _ => []) hlen2 (by simp)
          simp only [insertPath, lookupPath, lookup_setKey_self, ih']
          by_cases hp : p2 :: ps = l2 :: ls2
          · simp [hp]
          · have hne : ¬ (l' :: p2 :: ps = l' :: l2 :: ls2) := by
              intro hEq
              exact hp (List.cons.inj hEq).2
            rw [if_neg hp, if_neg hne]
            cases hm : m.lookup l' with
            | none => simp [lookupPath_empty]
            | some x =>
              cases x <;> simp [lookupPath_empty]
        · have hne : ¬ (l' :: p2 :: ps = l :: l2 :: ls2) := by
            intro hEq
            exact h (List.cons.inj hEq).1
          simp only [insertPath, lookupPath, lookup_setKey_ne l l' _ m h, if_neg hne]

/-- Inserting blocks that carry other label paths leaves a path as it was. -/
theorem lookupPath_foldl_of_ne {β : Type} (labelsOf : β → List String) (valueOf : β → Value)
    (path : List String) (hpath : 1 ≤ path.length) (bs : List β) :
    ∀ m : List (String × Value), (∀ b ∈ bs, (labelsOf b).length = path.length) →
      (∀ b ∈ bs, labelsOf b ≠ path) →
      lookupPath path (bs.foldl (fun m b => insertPath (labelsOf b) (valueOf b) m) m)
        = lookupPath path m := by
  induction bs with
  | nil => intro m _ _; rfl
  | cons b rest ih =>
    intro m hlen hne
    rw [List.foldl_cons, ih _ (fun b' hb' => hlen b' (List.mem_cons_of_mem _ hb'))
      (fun b' hb' => hne b' (List.mem_cons_of_mem _ hb'))]
    have hb := hlen b (List.mem_cons_self _ _)
    rw [lookupPath_insertPath (labelsOf b) (valueOf b) path m hb.symm (hb ▸ hpath)]
    rw [if_neg (fun hEq => hne b (List.mem_cons_self _ _) hEq.symm)]

/-- After inserting the blocks in order, the path of a block that no later block
repeats leads to the value of that block. -/
theorem lookupPath_foldl_last {β : Type} (labelsOf : β → List String) (valueOf : β → Value)
    (pre post : List β) (b : β) (m : List (String × Value))
    (hb : 1 ≤ (labelsOf b).length)
    (hlen : ∀ b' ∈ post, (labelsOf b').length = (labelsOf b).length)
    (hne : ∀ b' ∈ post, labelsOf b' ≠ labelsOf b) :
    lookupPath (labelsOf b)
        ((pre ++ b :: post).foldl (fun m b => insertPath (labelsOf b) (valueOf b) m) m)
      = some (valueOf b) := by
  rw [List.foldl_append, List.foldl_cons,
    lookupPath_foldl_of_ne labelsOf valueOf (labelsOf b) hb post _ hlen hne,
    lookupPath_insertPath (labelsOf b) (valueOf b) (labelsOf b) _ rfl hb]
  simp

/-- C11, as stated, fails on the modelled engine: when the primary is present
but invalid (here `x = "abc"` for the type `number`) it decodes to null with an
"invalid value" diagnostic, and `Default` returns that null with the diagnostic
instead of the value `false` of the fallback. -/
theorem C11_counterexample_invalid_primary_keeps_null :
    (Decode sampleEvaluate (.Attr "x" "number" false) (bodyWithX (.string "abc"))).1 = .null ∧
    (Decode sampleEvaluate (.Literal (.bool false)) (bodyWithX (.string "abc"))).1
      = .bool false ∧
    Decode sampleEvaluate (.Default (.Attr "x" "number" false) (.Literal (.bool false)))
        (bodyWithX (.string "abc"))
      = (.null, [{ kind := .invalidValue, name := "x" }]) ∧
    (Decode sampleEvaluate (.Default (.Attr "x" "number" false) (.Literal (.bool false)))
        (bodyWithX (.string "abc"))).1
      ≠ (Decode sampleEvaluate (.Literal (.bool false)) (bodyWithX (.string "abc"))).1 :=
  ⟨rfl, rfl, rfl, fun h => by
    have h2 : Value.null = Value.bool false := h
    cases h2⟩

/-- C11, amended: `Decode` of a `Default` returns the result of the primary when
its value is non-null; the result of the fallback when the primary decodes to
null without a diagnostic that makes it present but invalid; and the null of the
primary with its diagnostics when there is such a diagnostic.  In particular
`Default(Attr(name, not required), Literal(v))` decodes to `v` on a body lacking
the attribute and to the attribute's value on a body where it evaluates to a
non-null value. -/
theorem C11_default_fallback_unless_present_but_invalid {E : Type} (Evaluate : Evaluator E)
    (primary fallback : SpecNode) (body : Body E) :
    ((Decode Evaluate primary body).1.isNull = false →
      Decode Evaluate (.Default primary fallback) body = Decode Evaluate primary body) ∧
    ((Decode Evaluate primary body).1.isNull = true →
      (∀ d ∈ (Decode Evaluate primary body).2, d.presentButInvalid = false) →
      Decode Evaluate (.Default primary fallback) body = Decode Evaluate fallback body) ∧
    ((Decode Evaluate primary body).1.isNull = true →
      (∃ d ∈ (Decode Evaluate primary body).2, d.presentButInvalid = true) →
      Decode Evaluate (.Default primary fallback) body = Decode Evaluate primary body) ∧
    (∀ (name type : String) (v : Value), body.GetAttribute name = none →
      Decode Evaluate (.Default (.Attr name type false) (.Literal v)) body = (v, [])) ∧
    (∀ (name type : String) (v w : Value) (e : E), body.GetAttribute name = some e →
      Evaluate e type = .ok w → w.isNull = false →
      Decode Evaluate (.Default (.Attr name type false) (.Literal v)) body = (w, [])) := by
  refine ⟨?_, ?_, ?_, ?_, ?_⟩
  · intro h
    simp only [Decode] at h ⊢
    simp [decodeNode, h]
  · intro h hd
    simp only [Decode] at h hd ⊢
    have hany : (decodeNode Evaluate "" primary body).2.any Diagnostic.presentButInvalid = false := by
      rw [Bool.eq_false_iff]
      intro hany
      obtain ⟨d, hm, hp⟩ := List.any_eq_true.mp hany
      rw [hd d hm] at hp
      cases hp
    simp [decodeNode, h, hany]
  · intro _ hd
    simp only [Decode] at hd ⊢
    have hany : (decodeNode Evaluate "" primary body).2.any Diagnostic.presentButInvalid = true :=
      List.any_eq_true.mpr hd
    simp [decodeNode, hany]
  · intro name type v h
    simp [Decode, decodeNode, selectName_root, h, Value.isNull]
  · intro name type v w e h hev hw
    simp [Decode, decodeNode, selectName_root, h, hev, hw]

/-- C11 on the example of the claim: `Default(Attr(x, bool), Literal(false))`
decodes to `false` on a body lacking `x` and to `true` on a body with
`x = true`. -/
theorem C11_default_fallback_witness :
    Decode sampleEvaluate (.Default (.Attr "x" "bool" false) (.Literal (.bool false))) emptyBody
      = (.bool false, []) ∧
    Decode sampleEvaluate (.Default (.Attr "x" "bool" false) (.Literal (.bool false)))
        (bodyWithX (.bool true))
      = (.bool true, []) :=
  ⟨(C11_default_fallback_unless_present_but_invalid sampleEvaluate (.Attr "x" "bool" false)
      (.Literal (.bool false)) emptyBody).2.2.2.1 "x" "bool" (.bool false) rfl,
   (C11_default_fallback_unless_present_but_invalid sampleEvaluate (.Attr "x" "bool" false)
      (.Literal (.bool false)) (bodyWithX (.bool true))).2.2.2.2 "x" "bool" (.bool false)
      (.bool true) (.bool true) rfl rfl rfl⟩

/-- C12, as stated, fails on the modelled engine: a `BlockList` whose nested
spec is itself a `BlockList` passes on the diagnostics of the nested decodes.
Here one `tag` block is within the bounds `0, 0` of the outer list, and yet
`Decode` emits a cardinality diagnostic, that of the inner list, which finds no
`tag` block in the block's empty body and requires one. -/
theorem C12_counterexample_nested_list_emits_cardinality :
    (bodyOneEmptyTag.GetBlocks "tag").length = 1 ∧
    ¬ ((bodyOneEmptyTag.GetBlocks "tag").length < 0 ∨
      (0 > 0 ∧ (bodyOneEmptyTag.GetBlocks "tag").length > 0)) ∧
    Decode sampleEvaluate (.BlockList "tag" 0 0 (.BlockList "tag" 1 0 (.Attr "x" "" false)))
        bodyOneEmptyTag
      = (.sequence [.sequence []], [{ kind := .cardinality, name := "tag" }]) ∧
    ∃ d ∈ (Decode sampleEvaluate
        (.BlockList "tag" 0 0 (.BlockList "tag" 1 0 (.Attr "x" "" false))) bodyOneEmptyTag).2,
      d.kind = .cardinality := by
  refine ⟨by decide, by decide, rfl, ?_⟩
  exact ⟨{ kind := .cardinality, name := "tag" }, by decide, rfl⟩

/-- C12, amended: `Decode` of a `BlockList` over a body with `n` matching blocks
returns the sequence of the `n` nested results in encounter order; its
diagnostics are the cardinality diagnostic of the list itself, present exactly
when `n < minItems` or `maxItems > 0` and `n > maxItems`, followed by the
diagnostics of the nested decodes; so the diagnostics of `Decode` hold a
cardinality diagnostic exactly when that condition holds or a nested decode
emitted one. -/
theorem C12_block_list_cardinality_law {E : Type} (Evaluate : Evaluator E) (name : String)
    (minItems maxItems : Nat) (nested : SpecNode) (body : Body E) :
    (Decode Evaluate (.BlockList name minItems maxItems nested) body).1
      = .sequence ((body.GetBlocks name).map (fun b => (Decode Evaluate nested b.body).1)) ∧
    (∃ vs, (Decode Evaluate (.BlockList name minItems maxItems nested) body).1 = .sequence vs ∧
      vs.length = (body.GetBlocks name).length) ∧
    (Decode Evaluate (.BlockList name minItems maxItems nested) body).2
      = (if (body.GetBlocks name).length < minItems ∨
            (maxItems > 0 ∧ (body.GetBlocks name).length > maxItems)
          then [{ kind := .cardinality, name := name }] else [])
        ++ ((body.GetBlocks name).map (fun b => (Decode Evaluate nested b.body).2)).flatten ∧
    ((∃ d ∈ (Decode Evaluate (.BlockList name minItems maxItems nested) body).2,
        d.kind = .cardinality) ↔
      (((body.GetBlocks name).length < minItems ∨
          (maxItems > 0 ∧ (body.GetBlocks name).length > maxItems)) ∨
        ∃ b ∈ body.GetBlocks name, ∃ d ∈ (Decode Evaluate nested b.body).2,
          d.kind = .cardinality)) := by
  have hval : (Decode Evaluate (.BlockList name minItems maxItems nested) body).1
      = .sequence ((body.GetBlocks name).map (fun b => (Decode Evaluate nested b.body).1)) := by
    simp [Decode, decodeNode, selectName_root, List.map_map, Function.comp_def]
  have hdiag : (Decode Evaluate (.BlockList name minItems maxItems nested) body).2
      = (if (body.GetBlocks name).length < minItems ∨
            (maxItems > 0 ∧ (body.GetBlocks name).length > maxItems)
          then [{ kind := .cardinality, name := name }] else [])
        ++ ((body.GetBlocks name).map (fun b => (Decode Evaluate nested b.body).2)).flatten := by
    simp [Decode, decodeNode, selectName_root, cardinalityDiagnostics, List.map_map,
      Function.comp_def]
  refine ⟨hval, ⟨_, hval, by simp⟩, hdiag, ?_⟩
  rw [hdiag]
  constructor
  · rintro ⟨d, hd, hk⟩
    rcases List.mem_append.mp hd with hown | hnested
    · left
      by_contra hc
      rw [if_neg hc] at hown
      cases hown
    · right
      obtain ⟨l, hl, hdl⟩ := List.mem_flatten.mp hnested
      obtain ⟨b, hb, rfl⟩ := List.mem_map.mp hl
      exact ⟨b, hb, d, hdl, hk⟩
  · rintro (hc | ⟨b, hb, d, hd, hk⟩)
    · refine ⟨{ kind := .cardinality, name := name }, ?_, rfl⟩
      rw [if_pos hc]
      exact List.mem_append_left _ (List.mem_singleton_self _)
    · exact ⟨d, List.mem_append_right _
        (List.mem_flatten.mpr ⟨_, List.mem_map.mpr ⟨b, hb, rfl⟩, hd⟩), hk⟩

/-- C12 on the example of the claim: with `minItems = 1` and `maxItems = 2` and
a nested spec that emits no cardinality diagnostic, bodies with 0 and 3 matching
blocks give a cardinality diagnostic and bodies with 1 and 2 give none. -/
theorem C12_cardinality_witness :
    (∃ d ∈ (Decode sampleEvaluate (.BlockList "tag" 1 2 (.Attr "x" "" false)) (bodyOfCount 0)).2,
      d.kind = .cardinality) ∧
    (¬ ∃ d ∈ (Decode sampleEvaluate (.BlockList "tag" 1 2 (.Attr "x" "" false)) (bodyOfCount 1)).2,
      d.kind = .cardinality) ∧
    (¬ ∃ d ∈ (Decode sampleEvaluate (.BlockList "tag" 1 2 (.Attr "x" "" false)) (bodyOfCount 2)).2,
      d.kind = .cardinality) ∧
    (∃ d ∈ (Decode sampleEvaluate (.BlockList "tag" 1 2 (.Attr "x" "" false)) (bodyOfCount 3)).2,
      d.kind = .cardinality) :=
  ⟨(C12_block_list_cardinality_law sampleEvaluate "tag" 1 2 (.Attr "x" "" false)
      (bodyOfCount 0)).2.2.2.mpr (by decide),
   fun h => absurd ((C12_block_list_cardinality_law sampleEvaluate "tag" 1 2 (.Attr "x" "" false)
      (bodyOfCount 1)).2.2.2.mp h) (by decide),
   fun h => absurd ((C12_block_list_cardinality_law sampleEvaluate "tag" 1 2 (.Attr "x" "" false)
      (bodyOfCount 2)).2.2.2.mp h) (by decide),
   (C12_block_list_cardinality_law sampleEvaluate "tag" 1 2 (.Attr "x" "" false)
      (bodyOfCount 3)).2.2.2.mpr (by decide)⟩

/-- C13: `Decode` of a `BlockSet` returns a set in which no two elements are
structurally equal, which holds a structural equal of the value decoded from
every matching block, exactly one for each, and every element of which is the
value decoded from a matching block: two structurally identical blocks yield
one copy.  Structural equality is that of the specification, which ignores the
order of the entries of a mapping and of the elements of a set. -/
theorem C13_block_set_deduplicates {E : Type} (Evaluate : Evaluator E) (name : String)
    (minItems maxItems : Nat) (nested : SpecNode) (body : Body E) :
    ∃ vs, (Decode Evaluate (.BlockSet name minItems maxItems nested) body).1 = .set vs ∧
      vs.Pairwise (fun a b => Value.equal a b = false ∧ Value.equal b a = false) ∧
      (∀ b ∈ body.GetBlocks name,
        ∃ w ∈ vs, Value.equal w (Decode Evaluate nested b.body).1 = true) ∧
      (∀ b ∈ body.GetBlocks name,
        (vs.filter (fun w => Value.equal w (Decode Evaluate nested b.body).1)).length = 1) ∧
      (∀ w ∈ vs, ∃ b ∈ body.GetBlocks name, (Decode Evaluate nested b.body).1 = w) := by
  have hpw := pairwise_dedupInto
    ((body.GetBlocks name).map (fun b => (Decode Evaluate nested b.body).1)) []
    List.Pairwise.nil
  have hcov : ∀ b ∈ body.GetBlocks name,
      ∃ w ∈ dedupInto [] ((body.GetBlocks name).map (fun b => (Decode Evaluate nested b.body).1)),
        Value.equal w (Decode Evaluate nested b.body).1 = true :=
    fun b hb => covered_dedupInto _ [] _ (List.mem_map.mpr ⟨b, hb, rfl⟩)
  refine ⟨dedupInto [] ((body.GetBlocks name).map (fun b => (Decode Evaluate nested b.body).1)),
    ?_, ?_, hcov, ?_, ?_⟩
  · simp [Decode, decodeNode, selectName_root, List.map_map, Function.comp_def]
  · refine List.Pairwise.imp (fun {a b} hab => ⟨hab, ?_⟩) hpw
    cases hba : Value.equal b a with
    | false => rfl
    | true =>
      rw [Value.equal_symm b a hba] at hab
      cases hab
  · intro b hb
    exact filter_equal_length_of_pairwise _ hpw _ (hcov b hb)
  · intro w hw
    rcases mem_dedupInto _ [] w hw with h | h
    · cases h
    · obtain ⟨b, hb, hEq⟩ := List.mem_map.mp h
      exact ⟨b, hb, hEq⟩

/-- C14, as stated, fails on the modelled engine: of two blocks that carry the
same label path the later one overwrites the earlier, so the value at the path
`(us)` is not the nested spec decoded against the body of the first block. -/
theorem C14_counterexample_repeated_label_path :
    (∀ b ∈ bodyRepeatedLabel.GetBlocks "site", b.labels.length = ["region"].length) ∧
    Decode sampleEvaluate (.BlockMap "site" ["region"] (.Attr "x" "" false)) bodyRepeatedLabel
      = (.mapping [("us", .number 2)], []) ∧
    (Decode sampleEvaluate (.Attr "x" "" false) (bodyWithX (.number 1))).1 = .number 1 ∧
    lookupPath ["us"] [("us", .number 2)]
      ≠ some (Decode sampleEvaluate (.Attr "x" "" false) (bodyWithX (.number 1))).1 := by
  refine ⟨by decide, rfl, rfl, ?_⟩
  intro h
  have h2 : Value.number 2 = Value.number 1 := Option.some.inj h
  cases h2

/-- C14, amended: for a `BlockMap` with `k ≥ 1` labels and a body whose matching
blocks each carry exactly `k` labels, `Decode` returns a mapping nested `k`
levels deep with no diagnostic of its own: the label path of a matching block
leads to the nested spec decoded against the body of the last block that
carries this path, and a path of length `k` carried by no matching block leads
nowhere. -/
theorem C14_block_map_label_nesting {E : Type} (Evaluate : Evaluator E) (name : String)
    (labels : List String) (nested : SpecNode) (body : Body E)
    (hk : 1 ≤ labels.length)
    (hall : ∀ b ∈ body.GetBlocks name, b.labels.length = labels.length) :
    (∃ m, (Decode Evaluate (.BlockMap name labels nested) body).1 = .mapping m ∧
      (∀ pre b post, body.GetBlocks name = pre ++ b :: post →
        (∀ b' ∈ post, b'.labels ≠ b.labels) →
        lookupPath b.labels m = some (Decode Evaluate nested b.body).1) ∧
      (∀ path, path.length = labels.length →
        (∀ b ∈ body.GetBlocks name, b.labels ≠ path) → lookupPath path m = none)) ∧
    (Decode Evaluate (.BlockMap name labels nested) body).2
      = ((body.GetBlocks name).map (fun b => (Decode Evaluate nested b.body).2)).flatten := by
  have hfilter : (body.GetBlocks name).filter (fun b => b.labels.length == labels.length)
      = body.GetBlocks name := by
    rw [List.filter_eq_self]
    intro b hb
    simp [hall b hb]
  constructor
  · refine ⟨(body.GetBlocks name).foldl
      (fun m b => insertPath b.labels (Decode Evaluate nested b.body).1 m) [], ?_, ?_, ?_⟩
    · simp [Decode, decodeNode, selectName_root, hfilter]
    · intro pre b post hsplit hne
      have hb : b ∈ body.GetBlocks name := by
        rw [hsplit]
        exact List.mem_append_right _ (List.mem_cons_self _ _)
      have hpost : ∀ b' ∈ post, b' ∈ body.GetBlocks name := by
        intro b' hb'
        rw [hsplit]
        exact List.mem_append_right _ (List.mem_cons_of_mem _ hb')
      rw [hsplit]
      exact lookupPath_foldl_last (fun b => b.labels)
        (fun b => (Decode Evaluate nested b.body).1) pre post b []
        (by rw [hall b hb]; exact hk)
        (fun b' hb' => by rw [hall b' (hpost b' hb'), hall b hb]) hne
    · intro path hlen hne
      rw [lookupPath_foldl_of_ne (fun b => b.labels)
        (fun b => (Decode Evaluate nested b.body).1) path (by rw [hlen]; exact hk)
        (body.GetBlocks name) [] (fun b hb => by rw [hall b hb, hlen]) hne]
      exact lookupPath_empty path
  · simp only [Decode, decodeNode, selectName_root]
    congr 1
    apply List.map_congr_left
    intro b hb
    simp [hall b hb]

/-- C14 on the example of the claim: with the labels `[region, zone]`, the
blocks labelled `(us, a)` and `(us, b)` give the mapping `us: (a: v, b: v')`. -/
theorem C14_label_nesting_witness :
    1 ≤ ["region", "zone"].length ∧
    (∀ b ∈ bodyTwoZones.GetBlocks "site", b.labels.length = ["region", "zone"].length) ∧
    Decode sampleEvaluate (.BlockMap "site" ["region", "zone"] (.Attr "x" "" false)) bodyTwoZones
      = (.mapping [("us", .mapping [("a", .number 1), ("b", .number 2)])], []) ∧
    ∃ m, (Decode sampleEvaluate (.BlockMap "site" ["region", "zone"] (.Attr "x" "" false))
        bodyTwoZones).1 = .mapping m ∧
      lookupPath ["us", "a"] m = some (.number 1) ∧
      lookupPath ["us", "b"] m = some (.number 2) ∧
      lookupPath ["eu", "a"] m = none := by
  refine ⟨by decide, by decide, rfl, ?_⟩
  obtain ⟨⟨m, hm, hlast, hnone⟩, _⟩ :=
    C14_block_map_label_nesting sampleEvaluate "site" ["region", "zone"] (.Attr "x" "" false)
      bodyTwoZones (by decide) (by decide)
  exact ⟨m, hm,
    hlast [] (blockWithX "site" ["us", "a"] (.number 1))
      [blockWithX "site" ["us", "b"] (.number 2)] rfl (by decide),
    hlast [blockWithX "site" ["us", "a"] (.number 1)]
      (blockWithX "site" ["us", "b"] (.number 2)) [] rfl (by decide),
    hnone ["eu", "a"] rfl (by decide)⟩

/-- C13 on concrete input: of three `tag` blocks, the first two structurally
identical, the decoded set keeps two values; and of two `group` blocks whose
sets of tags are `a, b` and `b, a`, equal as sets, it keeps one. -/
theorem C13_block_set_witness :
    Decode sampleEvaluate (.BlockSet "tag" 0 0 (.Attr "x" "" false)) bodyThreeTags
      = (.set [.string "a", .string "b"], []) ∧
    Decode sampleEvaluate (.BlockSet "group" 0 0 (.BlockSet "tag" 0 0 (.Attr "x" "" false)))
        bodyTwoGroups
      = (.set [.set [.string "a", .string "b"]], []) ∧
    ∃ vs, (Decode sampleEvaluate (.BlockSet "tag" 0 0 (.Attr "x" "" false)) bodyThreeTags).1
        = .set vs ∧
      (vs.filter (fun w => Value.equal w (.string "a"))).length = 1 := by
  refine ⟨rfl, rfl, ?_⟩
  obtain ⟨vs, hvs, _, _, hone, _⟩ :=
    C13_block_set_deduplicates sampleEvaluate "tag" 0 0 (.Attr "x" "" false) bodyThreeTags
  exact ⟨vs, hvs, hone (blockWithX "tag" [] (.string "a")) (by
    show blockWithX "tag" [] (.string "a") ∈ bodyThreeTags.GetBlocks "tag"
    exact List.mem_cons_self _ _)⟩

end hclspec
